import Mathlib

/- Verification development for the TakeoutExifOrganizer reconciliation
   pipeline.  The definitions below are a shallow embedding of the source
   modules (media_type.py, media_metadata.py, metadata_handler.py,
   file_organizer.py, persistence_manager.py, media_processor.py and the
   legacy organize_photos.py); Python floats are modelled as rationals,
   fallible calls as Option values, and the external world (filesystem,
   ExifTool) as explicit oracle parameters. -/

/-! ## Capability table (media_type.py) -/

/-- media_type.py, class MediaType: capability profile of a media format. -/
structure MediaType where
  supports_exif : Bool := false
  supports_iptc : Bool := false
  supports_xmp : Bool := false
  supports_qt : Bool := false
  recognized : Bool := true
deriving DecidableEq

/-- media_type.py, MediaType.supports_write. -/
def MediaType.supports_write (m : MediaType) : Bool :=
  m.supports_exif || m.supports_iptc || m.supports_xmp || m.supports_qt

/-- media_type.py, UNKNOWN: profile of an unrecognized extension. -/
def UNKNOWN : MediaType := { recognized := false }

/-! ## Filename helpers (Python pathlib semantics)

`Path.suffix` / `Path.stem` look at the last dot of the final component and
treat a leading or trailing dot as not starting an extension. -/

/-- Index of the last occurrence of a dot in the name, if any. -/
def lastDotIdx (name : String) : Option Nat :=
  ((name.toList.enum.filter (fun p => p.2 == '.')).map (fun p => p.1)).getLast?

/-- pathlib `Path(name).suffix`. -/
def suffixOf (name : String) : String :=
  match lastDotIdx name with
  | some i =>
    if 0 < i ∧ i < name.length - 1 then String.mk (name.data.drop i) else ""
  | none => ""

/-- pathlib `Path(name).stem`. -/
def stemOf (name : String) : String :=
  match lastDotIdx name with
  | some i =>
    if 0 < i ∧ i < name.length - 1 then String.mk (name.data.take i) else name
  | none => name

/-- The stem and the suffix always reassemble the whole name. -/
theorem stem_append_suffix (name : String) :
    stemOf name ++ suffixOf name = name := by
  rw [stemOf, suffixOf]
  match h : lastDotIdx name with
  | none => simp
  | some i =>
    by_cases hc : 0 < i ∧ i < name.length - 1
    · simp only [if_pos hc]
      apply String.ext
      rw [String.data_append]
      show name.data.take i ++ name.data.drop i = name.data
      exact List.take_append_drop i name.data
    · simp only [if_neg hc]
      apply String.ext
      simp

/-- pathlib `Path(name).with_suffix(s).name`. -/
def withSuffix (name : String) (s : String) : String :=
  stemOf name ++ s

/-- Python `str.lower()` over the character data (ASCII range suffices for
    the extension tables this code lower-cases). -/
def strToLower (s : String) : String :=
  String.mk (s.data.map Char.toLower)

/-- media_type.py, SUPPORTED_MEDIA table (keyed by lower-cased extension). -/
def SUPPORTED_MEDIA (ext : String) : Option MediaType :=
  if ext ∈ [".jpg", ".jpeg", ".jpe", ".png", ".tif", ".tiff"] then
    some { supports_exif := true, supports_iptc := true, supports_xmp := true }
  else if ext ∈ [".heic", ".heif", ".webp"] then
    some { supports_exif := true, supports_xmp := true }
  else if ext ∈ [".mp4", ".mov", ".m4v", ".3gp", ".mp"] then
    some { supports_xmp := true, supports_qt := true }
  else if ext = ".gif" then
    some { supports_xmp := true }
  else if ext ∈ [".bmp", ".avi", ".wmv", ".mkv"] then
    some {}
  else none

/-- media_type.py, get_media_type (on the file's final name component). -/
def get_media_type (name : String) : MediaType :=
  (SUPPORTED_MEDIA (strToLower (suffixOf name))).getD UNKNOWN

/-! ## Civil-calendar arithmetic

`datetime.fromtimestamp` converts an epoch-seconds value to a local calendar
date.  We model the local timezone as a fixed offset (in seconds) and use the
standard days-to-civil-date algorithm. -/

/-- Convert a count of days since 1970-01-01 to (year, month, day). -/
def civilFromDays (z0 : Int) : Int × Int × Int :=
  let z := z0 + 719468
  let era : Int := Int.fdiv z 146097
  let doe : Int := z - era * 146097
  let yoe : Int :=
    Int.fdiv (doe - Int.fdiv doe 1460 + Int.fdiv doe 36524 - Int.fdiv doe 146096) 365
  let y : Int := yoe + era * 400
  let doy : Int := doe - (365 * yoe + Int.fdiv yoe 4 - Int.fdiv yoe 100)
  let mp : Int := Int.fdiv (5 * doy + 2) 153
  let d : Int := doy - Int.fdiv (153 * mp + 2) 5 + 1
  let m : Int := if mp < 10 then mp + 3 else mp - 9
  (if m ≤ 2 then y + 1 else y, m, d)

/-- The local calendar day (days since epoch) of an epoch-seconds timestamp:
    ⌊(ts + tz) / 86400⌋, written with integer operations (⌊ts⌋ + tz, then a
    flooring division by 86400, which agrees with the rational computation
    because tz and 86400 are integers). -/
def localDayOf (tz : Int) (ts : ℚ) : Int :=
  Int.fdiv (Rat.floor ts + tz) 86400

/-- The local calendar year of an epoch-seconds timestamp. -/
def localYearOf (tz : Int) (ts : ℚ) : Int :=
  (civilFromDays (localDayOf tz ts)).1

/-- The local calendar month of an epoch-seconds timestamp. -/
def localMonthOf (tz : Int) (ts : ℚ) : Int :=
  (civilFromDays (localDayOf tz ts)).2.1

/-! ## Metadata value type (media_metadata.py) -/

/-- media_metadata.py, dataclass GpsData. -/
structure GpsData where
  latitude : ℚ
  longitude : ℚ
  altitude : Option ℚ := none
deriving DecidableEq

/-- media_metadata.py, dataclass MediaMetadata (the value stored per
    (file, source) metadata record; the handler's plain-dict payloads carry
    the same fields, with a missing key modelled as `none`). -/
structure MediaMetadata where
  timestamp : Option ℚ := none
  people : Option (List String) := none
  gps : Option GpsData := none
  url : Option String := none
deriving DecidableEq

/-! ## Timestamp validity and merge priority (media_processor.py) -/

/-- media_processor.py, MediaProcessor._is_valid_timestamp: None is invalid;
    `datetime.fromtimestamp` succeeds only for calendar years 1..9999 (an
    OverflowError/OSError outside that range is caught and mapped to False);
    otherwise valid iff the local calendar year is ≥ 1999. -/
def is_valid_timestamp (tz : Int) (timestamp : Option ℚ) : Bool :=
  match timestamp with
  | none => false
  | some ts =>
    let y := localYearOf tz ts
    if y < 1 ∨ 9999 < y then false else decide (1999 ≤ y)

/-- media_processor.py, MediaProcessor._determine_timestamp: embedded wins if
    valid, else the sidecar if valid, else the file's mtime. -/
def determine_timestamp (tz : Int) (mtime : ℚ)
    (media_timestamp json_timestamp : Option ℚ) : ℚ :=
  if is_valid_timestamp tz media_timestamp then media_timestamp.getD mtime
  else if is_valid_timestamp tz json_timestamp then json_timestamp.getD mtime
  else mtime

/-- Python `a or b` on optional strings ("" and None are falsy). -/
def py_str_or (a b : Option String) : Option String :=
  match a with
  | some s => if s = "" then b else some s
  | none => b

/-- media_processor.py, MediaProcessor._merge_metadata. -/
def merge_metadata (tz : Int) (mtime : ℚ)
    (media_metadata json_metadata : MediaMetadata) : MediaMetadata :=
  { timestamp := some (determine_timestamp tz mtime
      media_metadata.timestamp json_metadata.timestamp)
    gps := media_metadata.gps.orElse (fun _ => json_metadata.gps)
    people := match json_metadata.people with
      | some l => some l
      | none => media_metadata.people
    url := py_str_or media_metadata.url json_metadata.url }

example : localYearOf 0 1640995200 = 2022 := by decide
example : localYearOf 0 1609459200 = 2021 := by decide
example : localYearOf 0 1577836800 = 2020 := by decide
example : localYearOf 0 631152000 = 1990 := by decide
example : localMonthOf 0 1686830400 = 6 := by decide
example : is_valid_timestamp 0 (some 1640995200) = true := by decide
example : is_valid_timestamp 0 (some 631152000) = false := by decide
example : is_valid_timestamp 0 none = false := by decide

/-! ## Sidecar JSON model (metadata_handler.py, media_metadata.py)

A sidecar JSON dictionary is modelled field-by-field; an absent key is
`none`.  The nested `photoTakenTime.timestamp` pair is collapsed to a single
optional integer (present iff both keys are present, already through
Python's `int(...)`); a `people` entry is the optional value of its `name`
key (`none` when the key is missing). -/

/-- The `geoData` object of a sidecar. -/
structure GeoJson where
  latitude : Option ℚ := none
  longitude : Option ℚ := none
  altitude : Option ℚ := none
deriving DecidableEq

/-- A parsed sidecar JSON dictionary (the subset of keys the code reads). -/
structure SidecarJson where
  photoTakenTime : Option Int := none
  geoData : Option GeoJson := none
  url : Option String := none
  people : Option (List (Option String)) := none
deriving DecidableEq

/-- metadata_handler.py MetadataHandler._extract_timestamp_from_json. -/
def extract_timestamp_from_json (data : SidecarJson) : Option Int :=
  data.photoTakenTime

/-- metadata_handler.py MetadataHandler._extract_gps_from_json (the
    media_metadata.py copy behaves identically, with a GpsData result):
    requires all three of latitude, longitude, altitude to be present keys;
    nulls the (0,0) sentinel; an altitude of exactly 0.0 is dropped. -/
def extract_gps_from_json (data : SidecarJson) : Option GpsData :=
  match data.geoData with
  | none => none
  | some geo =>
    match geo.latitude, geo.longitude, geo.altitude with
    | some lat, some lon, some alt =>
      if ¬(lat = 0 ∧ lon = 0) then
        some { latitude := lat, longitude := lon,
               altitude := if alt ≠ (0 : ℚ) then some alt else none }
      else none
    | _, _, _ => none

/-- metadata_handler.py MetadataHandler._extract_url_from_json
    (`'url' in data and data['url']`: an empty string is falsy). -/
def extract_url_from_json (data : SidecarJson) : Option String :=
  match data.url with
  | some u => if u = "" then none else some u
  | none => none

/-- The name-collection loop shared by both people extractors:
    `if 'name' in person and person['name']` keeps non-missing, non-empty
    names. -/
def people_names_of (people : List (Option String)) : List String :=
  people.filterMap (fun person =>
    match person with
    | some nm => if nm = "" then none else some nm
    | none => none)

/-- metadata_handler.py MetadataHandler._extract_people_from_json: the
    collected names are returned only when non-empty (`if people_names:`),
    so an explicitly empty people list yields None. -/
def extract_people_from_json (data : SidecarJson) : Option (List String) :=
  match data.people with
  | some persons =>
    let people_names := people_names_of persons
    if people_names ≠ [] then some people_names else none
  | none => none

/-- media_metadata.py MediaMetadata._extract_people_from_json: the collected
    names are returned unconditionally whenever the `people` key holds a
    list (an explicitly empty list is preserved as `[]`). -/
def record_extract_people_from_json (data : SidecarJson) : Option (List String) :=
  match data.people with
  | some persons => some (people_names_of persons)
  | none => none

/-- metadata_handler.py MetadataHandler.parse_json_sidecar on a successfully
    parsed sidecar (a parse failure yields the empty record `{}`). -/
def parse_json_sidecar (data : SidecarJson) : MediaMetadata :=
  { timestamp := (extract_timestamp_from_json data).map (fun n => (n : ℚ))
    gps := extract_gps_from_json data
    url := extract_url_from_json data
    people := extract_people_from_json data }

/-! ## Approximate metadata equality (media_metadata.py, is_identical) -/

/-- Kernel-computable |a - b| for rationals (Batteries marks rational
    subtraction irreducible; this form evaluates).  `ratAbsDiff_eq` below
    proves it equal to the mathematical |a - b|. -/
def ratAbsDiff (a b : ℚ) : ℚ :=
  Rat.divInt ((a.num * (b.den : Int) - b.num * (a.den : Int)).natAbs : Int)
    ((a.den : Int) * (b.den : Int))

theorem ratAbsDiff_eq (a b : ℚ) : ratAbsDiff a b = |a - b| := by
  have ha : ((a.den : ℚ)) ≠ 0 := by
    exact_mod_cast a.den_nz
  have hb : ((b.den : ℚ)) ≠ 0 := by
    exact_mod_cast b.den_nz
  have hsub : a - b =
      ((a.num * (b.den : Int) - b.num * (a.den : Int) : Int) : ℚ) /
        (((a.den : Int) * (b.den : Int) : Int) : ℚ) := by
    conv_lhs => rw [← Rat.num_div_den a, ← Rat.num_div_den b]
    push_cast
    field_simp
    ring
  rw [ratAbsDiff, Rat.divInt_eq_div, Int.natCast_natAbs, Int.cast_abs, hsub,
    abs_div]
  congr 1
  have hpos : (0 : ℚ) < (((a.den : Int) * (b.den : Int) : Int) : ℚ) := by
    push_cast
    positivity
  rw [abs_of_pos hpos]

/-- is_identical, timestamp block: both absent, or both present and within
    one second (`abs(ts1 - ts2) > 1.0` returns False). -/
def ts_close (t1 t2 : Option ℚ) : Bool :=
  match t1, t2 with
  | none, none => true
  | some _, none => false
  | none, some _ => false
  | some x, some y => decide (ratAbsDiff x y ≤ 1)

/-- is_identical, GPS block: both absent, or both present with latitude and
    longitude each within 1e-4 degrees (altitude is not compared). -/
def gps_close (g1 g2 : Option GpsData) : Bool :=
  match g1, g2 with
  | none, none => true
  | some _, none => false
  | none, some _ => false
  | some x, some y =>
    decide (ratAbsDiff x.latitude y.latitude ≤ mkRat 1 10000) &&
    decide (ratAbsDiff x.longitude y.longitude ≤ mkRat 1 10000)

/-- Code-point lexicographic ≤ on character lists (Python's string order). -/
def charListLe : List Char → List Char → Bool
  | [], _ => true
  | _ :: _, [] => false
  | a :: as, b :: bs =>
    if a.toNat < b.toNat then true
    else if b.toNat < a.toNat then false
    else charListLe as bs

/-- Python's total order on strings (code-point lexicographic). -/
def pyStrLe (a b : String) : Bool := charListLe a.data b.data

/-- Python `sorted` on a list of strings (a stable sort under `pyStrLe`). -/
def pySorted (l : List String) : List String :=
  List.insertionSort (fun a b => pyStrLe a b = true) l

/-- is_identical, people block: both absent, or `sorted(p1) == sorted(p2)`. -/
def people_match (p1 p2 : Option (List String)) : Bool :=
  match p1, p2 with
  | none, none => true
  | some _, none => false
  | none, some _ => false
  | some l1, some l2 => decide (pySorted l1 = pySorted l2)

/-- media_metadata.py MediaMetadata.is_identical: the approximate-equality
    predicate used for duplicate detection at Execution. -/
def is_identical (self other : MediaMetadata) : Bool :=
  ts_close self.timestamp other.timestamp &&
  gps_close self.gps other.gps &&
  people_match self.people other.people &&
  decide (self.url = other.url)

example : is_identical {} {} = true := by decide
example :
    is_identical { timestamp := some 100, url := some "u" }
      { timestamp := some 100, url := some "u" } = true := by decide
example :
    is_identical { timestamp := some 100 } { timestamp := some 102 } = false := by
  decide
example :
    is_identical { people := some ["b", "a"] } { people := some ["a", "b"] } =
      true := by decide

/-! ## Paths and the file organizer (file_organizer.py) -/

/-- A filesystem path: the directory segments and the final name. -/
structure PathT where
  dirs : List String
  name : String
deriving DecidableEq

/-- strftime("%Y") for the years datetime supports (1..9999, no padding). -/
def yearStr (y : Int) : String := Nat.repr y.toNat

/-- strftime("%m"): months are zero-padded to two digits. -/
def monthStr (m : Int) : String :=
  if m < 10 then "0" ++ Nat.repr m.toNat else Nat.repr m.toNat

/-- file_organizer.py FileOrganizer.get_target_path:
    `<dest root>/<YYYY>/<MM>/<filename>` from the local calendar date of the
    timestamp, rewriting a `.mp` extension (case-insensitively) to `.mp4`. -/
def get_target_path (tz : Int) (dest_root : List String) (timestamp : ℚ)
    (original_filename : String) : PathT :=
  let year := yearStr (localYearOf tz timestamp)
  let month := monthStr (localMonthOf tz timestamp)
  let filename :=
    if strToLower (suffixOf original_filename) = ".mp" then
      withSuffix original_filename ".mp4"
    else original_filename
  { dirs := dest_root ++ [year, month], name := filename }

/-- The name `f"{stem}_{counter}{suffix}"` tried by the collision probe. -/
def probe_name (stem suffix : String) (counter : Nat) : String :=
  stem ++ "_" ++ Nat.repr counter ++ suffix

/-- file_organizer.py FileOrganizer.resolve_collision, the `while True` probe
    loop, with explicit fuel; `none` models non-termination (the source loop
    has no bound). -/
def probe_loop (ex : PathT → Bool) (parent : List String) (stem suffix : String) :
    Nat → Nat → Option PathT
  | 0, _ => none
  | fuel + 1, counter =>
    let new_path : PathT := { dirs := parent, name := probe_name stem suffix counter }
    if ex new_path = false then some new_path
    else probe_loop ex parent stem suffix fuel (counter + 1)

/-- file_organizer.py FileOrganizer.resolve_collision: return the target if
    free, else probe `_1`, `_2`, ... sequentially from 1. -/
def resolve_collision (ex : PathT → Bool) (fuel : Nat) (target_path : PathT) :
    Option PathT :=
  if ex target_path = false then some target_path
  else probe_loop ex target_path.dirs (stemOf target_path.name)
    (suffixOf target_path.name) fuel 1

/-- resolve_collision against a finite destination-file set; fuel |S|+1
    always suffices there (lemmas resolve_collision_fs_not_mem and
    resolve_collision_fs_mem below), so the getD default is never used. -/
def resolve_collision_fs (dest_files : List PathT) (target_path : PathT) : PathT :=
  (resolve_collision (fun p => decide (p ∈ dest_files)) (dest_files.length + 1)
    target_path).getD target_path

/-! ## Persistence (persistence_manager.py) -/

/-- persistence_manager.py, enum FileStatus. -/
inductive FileStatus
  | NEW | PENDING | IN_PROGRESS | METADATA_READ | TARGET_RESOLVED
  | SUCCESS | FAILED | SKIPPED
deriving DecidableEq

/-- persistence_manager.py, enum ProcessingPhase. -/
inductive ProcessingPhase
  | DISCOVERY | METADATA_READ | RESOLUTION | EXECUTION
deriving DecidableEq

/-- The source tag of a metadata record (schema: ENUM over the sources). -/
inductive MetaSource
  | MEDIA | JSON | MERGED
deriving DecidableEq

/-- One row of the `files` table. -/
structure FileRow where
  id : Nat
  source_path : PathT
  media_type : MediaType
  file_size : Nat
  mtime : ℚ
  status : FileStatus
  phase : ProcessingPhase
  target_path : Option PathT := none
  error_message : Option String := none
deriving DecidableEq

/-- The persisted store: the `files` table and the `metadata` table
    (PRIMARY KEY (file_id, source)). -/
structure DB where
  files : List FileRow
  metadata : List (Nat × MetaSource × MediaMetadata)
deriving DecidableEq

/-- persistence_manager.py PersistenceManager.add_file: INSERT under the
    UNIQUE source_path constraint; an IntegrityError is answered by returning
    the existing row's id, leaving the table unchanged. -/
def add_file (db : DB) (path : PathT) (media_type : MediaType)
    (file_size : Nat) (mtime : ℚ) : Nat × DB :=
  match db.files.find? (fun r => decide (r.source_path = path)) with
  | some r => (r.id, db)
  | none =>
    let new_id := (db.files.map (fun r => r.id)).foldr max 0 + 1
    (new_id,
      { db with files := db.files ++
          [{ id := new_id, source_path := path, media_type := media_type,
             file_size := file_size, mtime := mtime, status := FileStatus.NEW,
             phase := ProcessingPhase.DISCOVERY }] })

/-- persistence_manager.py PersistenceManager.update_status. -/
def update_status (db : DB) (file_id : Nat) (status : FileStatus)
    (phase : ProcessingPhase) (error : Option String) : DB :=
  { db with files := db.files.map (fun r =>
      if r.id = file_id then
        { r with status := status, phase := phase, error_message := error }
      else r) }

/-- persistence_manager.py PersistenceManager.save_metadata
    (INSERT OR REPLACE on the (file_id, source) key). -/
def save_metadata (db : DB) (file_id : Nat) (source : MetaSource)
    (m : MediaMetadata) : DB :=
  { db with metadata :=
      (db.metadata.filter (fun e => !(decide (e.1 = file_id ∧ e.2.1 = source)))) ++
        [(file_id, source, m)] }

/-- persistence_manager.py PersistenceManager.get_metadata. -/
def get_metadata (db : DB) (file_id : Nat) (source : MetaSource) :
    Option MediaMetadata :=
  (db.metadata.find? (fun e => decide (e.1 = file_id ∧ e.2.1 = source))).map
    (fun e => e.2.2)

/-- persistence_manager.py PersistenceManager.get_files_by_status (the paged
    LIMIT is abstracted away: each phase's while-loop drains every matching
    row, and a processed row leaves the selected status). -/
def get_files_by_status (db : DB) (statuses : List FileStatus) : List FileRow :=
  db.files.filter (fun r => decide (r.status ∈ statuses))

/-! ## The phased pipeline (media_processor.py)

The external world seen by one run is collected in `Env`: stat results, the
ExifTool read results, sidecar discovery/parsing results, per-row exceptions
(a raised exception during a row's unit of work is modelled as an oracle
string), and the destination tree as it stands when the run begins. -/

/-- Suffix test on strings via their character data (kernel-computable). -/
def strEndsWith (s suffix : String) : Bool :=
  s.data.reverse.take suffix.data.length = suffix.data.reverse

/-- Prefix test on strings via their character data (kernel-computable). -/
def strStartsWith (s pre : String) : Bool :=
  s.data.take pre.data.length = pre.data

/-- The environment (external world) of a pipeline run. -/
structure Env where
  /-- local timezone offset of the machine, in seconds -/
  tz : Int
  /-- destination root directory -/
  dest_root : List String
  /-- `stat().st_size` per source file -/
  stat_size : PathT → Nat
  /-- `stat().st_mtime` per source file -/
  stat_mtime : PathT → ℚ
  /-- result of read_metadata_batch for a path, when ExifTool returned one -/
  media_meta : PathT → Option MediaMetadata
  /-- sidecar record for a path: `some` when _find_json_sidecar found a file,
      holding what parse_json_sidecar produced for it -/
  json_meta : PathT → Option MediaMetadata
  /-- exception raised inside a row's metadata-extraction step, if any -/
  extract_error : Nat → Option String
  /-- exception raised inside a row's resolution step, if any -/
  resolve_error : Nat → Option String
  /-- exception raised inside a row's execution step, if any -/
  exec_error : Nat → Option String
  /-- the files present under the destination root when the run starts -/
  dest_files : List PathT
  /-- Modelled from the spec: `MetadataHandler.extract_metadata` is called by
      MediaProcessor._execute_single_file but is absent from the source tree;
      per spec §4.6 it reads the target file's current embedded metadata, so
      it is modelled as an oracle from target paths to metadata records. -/
  extract_metadata : PathT → MediaMetadata

/-- Existence of a destination path, as the run's starting snapshot. -/
def Env.dest_exists (env : Env) (p : PathT) : Bool :=
  decide (p ∈ env.dest_files)

/-- media_processor.py MediaProcessor._should_process. -/
def should_process (path : PathT) (media_type : MediaType) : Bool :=
  !(strEndsWith (stemOf path.name) "-edited") && media_type.recognized

/-- media_processor.py MediaProcessor._phase_discovery: register every
    supported, non-edited file found by the walk over the source tree. -/
def phase_discovery (env : Env) (source_files : List PathT) (db : DB) : DB :=
  source_files.foldl (fun acc path =>
    let media_type := get_media_type path.name
    if should_process path media_type then
      (add_file acc path media_type (env.stat_size path) (env.stat_mtime path)).2
    else acc) db

/-- Per-row effect of Phase 2 on the files table: a NEW row advances to
    METADATA_READ, or fails with the exception recorded. -/
def extract_row (env : Env) (r : FileRow) : FileRow :=
  if r.status = FileStatus.NEW then
    match env.extract_error r.id with
    | some e =>
      { r with status := FileStatus.FAILED,
               phase := ProcessingPhase.METADATA_READ, error_message := some e }
    | none =>
      { r with status := FileStatus.METADATA_READ,
               phase := ProcessingPhase.METADATA_READ, error_message := none }
  else r

/-- Per-row metadata records saved by Phase 2 (MEDIA and JSON, in that
    order; a row whose step raised is modelled as saving nothing). -/
def extract_saves (env : Env) (r : FileRow) :
    List (Nat × MetaSource × MediaMetadata) :=
  if r.status = FileStatus.NEW ∧ env.extract_error r.id = none then
    (match env.media_meta r.source_path with
     | some m => [(r.id, MetaSource.MEDIA, m)]
     | none => []) ++
    (match env.json_meta r.source_path with
     | some m => [(r.id, MetaSource.JSON, m)]
     | none => [])
  else []

/-- media_processor.py MediaProcessor._phase_metadata_extraction (net effect
    of the chunked while-loop over all NEW rows). -/
def phase_metadata_extraction (env : Env) (db : DB) : DB :=
  { files := db.files.map (extract_row env)
    metadata := db.metadata ++ (db.files.map (extract_saves env)).flatten }

/-- Per-row effect of Phase 3: merge the MEDIA and JSON records, resolve the
    collision-free target path, advance to TARGET_RESOLVED; an exception
    turns the row FAILED with phase RESOLUTION. -/
def resolve_row (env : Env) (db : DB) (r : FileRow) : FileRow :=
  if r.status = FileStatus.METADATA_READ then
    match env.resolve_error r.id with
    | some e =>
      { r with status := FileStatus.FAILED,
               phase := ProcessingPhase.RESOLUTION, error_message := some e }
    | none =>
      let media_metadata := (get_metadata db r.id MetaSource.MEDIA).getD {}
      let json_metadata := (get_metadata db r.id MetaSource.JSON).getD {}
      let merged := merge_metadata env.tz (env.stat_mtime r.source_path)
        media_metadata json_metadata
      let timestamp := merged.timestamp.getD 0
      let target := get_target_path env.tz env.dest_root timestamp r.source_path.name
      let final := resolve_collision_fs env.dest_files target
      { r with status := FileStatus.TARGET_RESOLVED,
               phase := ProcessingPhase.RESOLUTION,
               target_path := some final, error_message := none }
  else r

/-- The MERGED record Phase 3 saves for a successfully resolved row. -/
def resolve_saves (env : Env) (db : DB) (r : FileRow) :
    List (Nat × MetaSource × MediaMetadata) :=
  if r.status = FileStatus.METADATA_READ ∧ env.resolve_error r.id = none then
    [(r.id, MetaSource.MERGED,
      merge_metadata env.tz (env.stat_mtime r.source_path)
        ((get_metadata db r.id MetaSource.MEDIA).getD {})
        ((get_metadata db r.id MetaSource.JSON).getD {}))]
  else []

/-- media_processor.py MediaProcessor._phase_resolution (net effect of the
    chunked while-loop over all METADATA_READ rows). -/
def phase_resolution (env : Env) (db : DB) : DB :=
  { files := db.files.map (resolve_row env db)
    metadata := db.metadata ++ (db.files.map (resolve_saves env db)).flatten }

/-- What one execution unit of work did: whether bytes were copied (and the
    mtime stamped on the copy), and the tag-write op queued for the batch. -/
structure ExecOutcome where
  copied : Bool
  copy_mtime : Option ℚ := none
  write_op : Option (PathT × MediaType × MediaMetadata) := none
deriving DecidableEq

/-- media_processor.py MediaProcessor._execute_single_file (the
    no-exception path; a raised exception is handled in exec_row below):
    if the target exists and the merged record is approximately identical to
    its current metadata, skip entirely; otherwise copy the bytes (stamping
    the merged timestamp, falling back to the source mtime under Python
    truthiness) and queue the write op — whose payload is the merged record —
    for writable formats. -/
def execute_single_file (env : Env) (row : FileRow)
    (merged_metadata : Option MediaMetadata) : ExecOutcome :=
  let source_path := row.source_path
  let target_path := row.target_path.getD { dirs := [], name := "" }
  let media_type := get_media_type source_path.name
  if env.dest_exists target_path &&
      (match merged_metadata with
       | some m => is_identical m (env.extract_metadata target_path)
       | none => false) then
    { copied := false }
  else
    let timestamp :=
      match merged_metadata with
      | some m =>
        match m.timestamp with
        | some t => if t ≠ 0 then t else env.stat_mtime source_path
        | none => env.stat_mtime source_path
      | none => env.stat_mtime source_path
    { copied := true
      copy_mtime := some timestamp
      write_op :=
        match merged_metadata with
        | some m =>
          if media_type.supports_write then some (target_path, media_type, m)
          else none
        | none => none }

/-- Per-row effect of Phase 4: a TARGET_RESOLVED row is executed and then
    marked SUCCESS (the final status sweep only promotes rows still
    TARGET_RESOLVED); an exception turns it FAILED with phase EXECUTION. -/
def exec_row (env : Env) (db : DB) (r : FileRow) : FileRow × ExecOutcome :=
  if r.status = FileStatus.TARGET_RESOLVED then
    match env.exec_error r.id with
    | some e =>
      ({ r with status := FileStatus.FAILED,
                phase := ProcessingPhase.EXECUTION, error_message := some e },
       { copied := false })
    | none =>
      let merged := get_metadata db r.id MetaSource.MERGED
      ({ r with status := FileStatus.SUCCESS,
                phase := ProcessingPhase.EXECUTION, error_message := none },
       execute_single_file env r merged)
  else (r, { copied := false })

/-- media_processor.py MediaProcessor._phase_execution (net effect over all
    TARGET_RESOLVED rows), together with the run's observable effect counts:
    how many byte copies were performed and how many tag-write ops were
    handed to write_metadata_batch. -/
def phase_execution (env : Env) (db : DB) : DB × Nat × Nat :=
  let results := db.files.map (exec_row env db)
  ({ files := results.map (fun p => p.1), metadata := db.metadata },
   (results.filter (fun p => p.2.copied)).length,
   (results.filter (fun p => p.2.write_op.isSome)).length)

/-- main.py / MediaProcessor.process: the four phases in order, returning
    the final store and the (copies, tag writes) performed. -/
def run_pipeline (env : Env) (source_files : List PathT) (db : DB) :
    DB × Nat × Nat :=
  let db1 := phase_discovery env source_files db
  let db2 := phase_metadata_extraction env db1
  let db3 := phase_resolution env db2
  phase_execution env db3

/-! ## The legacy single-file driver (organize_photos.py) -/

/-- Python truthiness of an optional float (None and 0.0 are falsy). -/
def py_truthy (t : Option ℚ) : Bool :=
  match t with
  | some v => decide (v ≠ 0)
  | none => false

/-- organize_photos.py MediaProcessor.process_file, step 5: the metadata
    dict handed to write_metadata after the timestamp-suppression check
    (`if media_timestamp and self.is_valid_timestamp(media_timestamp): del
    metadata['timestamp']`).  No other field is ever suppressed. -/
def legacy_write_payload (tz : Int) (media_timestamp : Option ℚ)
    (metadata : MediaMetadata) : MediaMetadata :=
  if py_truthy media_timestamp && is_valid_timestamp tz media_timestamp then
    { metadata with timestamp := none }
  else metadata

/-! ## The sidecar matcher (media_processor.py, _find_json_sidecar)

The matcher is modelled against the listing of the media file's directory:
the names present there, in directory-listing order (`Path.glob` yields the
matching existing names in that order, and `candidate.exists()` is
membership). -/

/-- Python `s[:-n]`. -/
def strDropRight (s : String) (n : Nat) : String :=
  String.mk (s.data.take (s.data.length - n))

/-- Whether a name matches the escaped glob pattern `{stem}.*json`:
    it starts with `stem.`, ends with `json`, and is long enough that the
    two parts do not overlap. -/
def glob_match_stem_json (stem name : String) : Bool :=
  strStartsWith name (stem ++ ".") && strEndsWith name "json" &&
    decide (stem.data.length + 5 ≤ name.data.length)

/-- The glob `parent.glob(f"{escaped_stem}.*json")`: the matching names of
    the directory listing, in listing order. -/
def glob_stem_json (listing : List String) (stem : String) : List String :=
  listing.filter (fun name => glob_match_stem_json stem name)

/-- media_processor.py, score_candidate (specificity of a sidecar name for
    the given media name; lower is better). -/
def score_candidate (media_name : String) (name : String) : Nat :=
  if name = media_name ++ ".json" then 0
  else if name = stemOf media_name ++ ".json" then 1
  else if strStartsWith name (media_name ++ ".") then 2
  else 3

/-- The regex search `(\(\d+\))$` on the stem: when the stem ends in a
    parenthesized digit run, returns (base stem, duplicate suffix). -/
def trailing_counter_split (stem : String) : Option (String × String) :=
  match stem.data.reverse with
  | ')' :: rest =>
    let digits := rest.takeWhile (fun c => c.isDigit)
    if digits = [] then none
    else
      match rest.drop digits.length with
      | '(' :: remaining =>
        some (String.mk remaining.reverse,
          String.mk ('(' :: digits.reverse ++ [')']))
      | _ => none
  | _ => none

/-- _find_json_sidecar, step 1: the glob candidates over the stem (and the
    edited-stripped stem), in directory-listing order. -/
def sidecar_glob_candidates (listing : List String) (media_name : String) :
    List String :=
  ((if strEndsWith (stemOf media_name) "-edited" then
      [stemOf media_name, strDropRight (stemOf media_name) 7]
    else [stemOf media_name]).map (glob_stem_json listing)).flatten

/-- _find_json_sidecar, step 2: `candidates.sort(key=score_candidate)` when
    more than one candidate (Python's sort is stable; insertionSort under
    score-≤ places earlier-listed candidates first among equal scores). -/
def sidecar_sorted_candidates (listing : List String) (media_name : String) :
    List String :=
  if (sidecar_glob_candidates listing media_name).length > 1 then
    List.insertionSort
      (fun a b => score_candidate media_name a ≤ score_candidate media_name b)
      (sidecar_glob_candidates listing media_name)
  else sidecar_glob_candidates listing media_name

/-- _find_json_sidecar, step 3: for a trailing duplicate counter, append the
    transposed form `name.ext(n).json` and the legacy `name(n).json`. -/
def sidecar_with_duplicate_forms (media_name : String)
    (candidates : List String) : List String :=
  match trailing_counter_split (stemOf media_name) with
  | some (base_stem, duplicate_suffix) =>
    let potential_name :=
      base_stem ++ suffixOf media_name ++ duplicate_suffix ++ ".json"
    let cs := candidates ++ [potential_name]
    let legacy_duplicate := stemOf media_name ++ ".json"
    if legacy_duplicate ∈ cs then cs else cs ++ [legacy_duplicate]
  | none => candidates

/-- media_processor.py MediaProcessor._find_json_sidecar: glob candidates
    for the stem (and the edited-stripped stem), stably sorted by
    specificity when more than one, then the duplicate-counter transposed
    and legacy forms appended; the first candidate present in the directory
    wins. -/
def find_json_sidecar (listing : List String) (media_name : String) :
    Option String :=
  (sidecar_with_duplicate_forms media_name
      (sidecar_sorted_candidates listing media_name)).find?
    (fun c => decide (c ∈ listing))

example :
    find_json_sidecar ["image.jpg", "image.jpg.json"] "image.jpg" =
      some "image.jpg.json" := by decide
example :
    find_json_sidecar ["image.jpg", "image.json"] "image.jpg" =
      some "image.json" := by decide
example :
    find_json_sidecar ["image-edited.jpg", "image.json"] "image-edited.jpg" =
      some "image.json" := by decide
example :
    find_json_sidecar ["image(1).jpg", "image.jpg(1).json"] "image(1).jpg" =
      some "image.jpg(1).json" := by decide
example :
    find_json_sidecar
      ["image.jpg", "image.jpg.supplemental-metadata.json"] "image.jpg" =
      some "image.jpg.supplemental-metadata.json" := by decide
example : find_json_sidecar ["image.jpg"] "image.jpg" = none := by decide

/-! ## Decimal representation facts

Injectivity of `Nat.repr`, needed for the collision-probe law: distinct
counters always produce distinct probe names. -/

/-- The decimal digit characters of n, most significant first. -/
def decDigits (n : Nat) : List Char :=
  if n < 10 then [Nat.digitChar n]
  else decDigits (n / 10) ++ [Nat.digitChar (n % 10)]
decreasing_by exact Nat.div_lt_self (by omega) (by omega)

theorem decDigits_small {n : Nat} (h : n < 10) :
    decDigits n = [Nat.digitChar n] := by
  rw [decDigits, if_pos h]

theorem decDigits_large {n : Nat} (h : ¬n < 10) :
    decDigits n = decDigits (n / 10) ++ [Nat.digitChar (n % 10)] := by
  conv_lhs => rw [decDigits]
  rw [if_neg h]

theorem toDigitsCore_eq_decDigits :
    ∀ (fuel n : Nat) (acc : List Char), n < fuel →
      Nat.toDigitsCore 10 fuel n acc = decDigits n ++ acc := by
  intro fuel
  induction fuel with
  | zero => intro n acc h; omega
  | succ fuel ih =>
    intro n acc h
    rw [Nat.toDigitsCore]
    by_cases h10 : n / 10 = 0
    · have hlt : n < 10 := by omega
      simp only [h10, if_pos rfl]
      rw [decDigits_small hlt, Nat.mod_eq_of_lt hlt]
      simp
    · have hge : 10 ≤ n := by
        by_contra hc
        exact h10 (Nat.div_eq_of_lt (by omega))
      have hlt2 : n / 10 < fuel := by
        have h1 : n / 10 < n := Nat.div_lt_self (by omega) (by omega)
        omega
      rw [if_neg h10, ih (n / 10) (Nat.digitChar (n % 10) :: acc) hlt2]
      conv_rhs => rw [@decDigits_large n (by omega)]
      simp

theorem repr_eq_decDigits (n : Nat) :
    Nat.repr n = (decDigits n).asString := by
  rw [Nat.repr, Nat.toDigits, toDigitsCore_eq_decDigits (n + 1) n [] (by omega)]
  simp

/-- The numeric value of a decimal digit character. -/
def digitVal (c : Char) : Nat := c.toNat - 48

theorem digitVal_digitChar (n : Nat) (h : n < 10) :
    digitVal (Nat.digitChar n) = n := by
  interval_cases n <;> decide

/-- Read a digit string back as a number (most significant first). -/
def parseDigits (acc : Nat) : List Char → Nat
  | [] => acc
  | c :: cs => parseDigits (acc * 10 + digitVal c) cs

theorem parseDigits_append (acc : Nat) (xs ys : List Char) :
    parseDigits acc (xs ++ ys) = parseDigits (parseDigits acc xs) ys := by
  induction xs generalizing acc with
  | nil => rfl
  | cons c cs ih => exact ih (acc * 10 + digitVal c)

theorem parseDigits_decDigits (n : Nat) : ∀ acc : Nat,
    parseDigits acc (decDigits n) = acc * 10 ^ (decDigits n).length + n := by
  induction n using Nat.strong_induction_on with
  | _ n ih =>
    intro acc
    by_cases h : n < 10
    · rw [decDigits_small h]
      show acc * 10 + digitVal (Nat.digitChar n) =
        acc * 10 ^ [Nat.digitChar n].length + n
      rw [digitVal_digitChar n h]
      simp only [List.length_cons, List.length_nil]
      ring
    · rw [decDigits_large h]
      have hdiv : n / 10 < n := Nat.div_lt_self (by omega) (by omega)
      rw [parseDigits_append, ih (n / 10) hdiv]
      show (acc * 10 ^ (decDigits (n / 10)).length + n / 10) * 10 +
          digitVal (Nat.digitChar (n % 10)) =
        acc * 10 ^ (decDigits (n / 10) ++ [Nat.digitChar (n % 10)]).length + n
      rw [digitVal_digitChar (n % 10) (Nat.mod_lt _ (by omega)),
        List.length_append, List.length_singleton]
      calc (acc * 10 ^ (decDigits (n / 10)).length + n / 10) * 10 + n % 10
          = acc * 10 ^ ((decDigits (n / 10)).length + 1) +
              (10 * (n / 10) + n % 10) := by ring
        _ = acc * 10 ^ ((decDigits (n / 10)).length + 1) + n := by
              rw [Nat.div_add_mod]

theorem decDigits_injective {m n : Nat} (h : decDigits m = decDigits n) :
    m = n := by
  have hm := parseDigits_decDigits m 0
  have hn := parseDigits_decDigits n 0
  rw [h] at hm
  rw [hm] at hn
  omega

theorem repr_injective {m n : Nat} (h : Nat.repr m = Nat.repr n) : m = n := by
  rw [repr_eq_decDigits, repr_eq_decDigits] at h
  have hdata : (decDigits m) = (decDigits n) := by
    have := congrArg String.data h
    simpa [List.asString] using this
  exact decDigits_injective hdata

theorem decDigits_length_pos (n : Nat) : 0 < (decDigits n).length := by
  by_cases h : n < 10
  · rw [decDigits_small h]; simp
  · rw [decDigits_large h]; simp

theorem repr_length_pos (n : Nat) : 0 < (Nat.repr n).data.length := by
  rw [repr_eq_decDigits]
  simpa [List.asString] using decDigits_length_pos n

/-! ## Collision-probe lemmas (file_organizer.py, resolve_collision) -/

theorem probe_name_injective (stem suffix : String) :
    Function.Injective (probe_name stem suffix) := by
  intro i j h
  apply repr_injective
  have hd := congrArg String.data h
  simp only [probe_name, String.data_append, List.append_assoc] at hd
  have h1 := List.append_cancel_left hd
  have h2 := List.append_cancel_left h1
  have h3 := List.append_cancel_right h2
  exact String.ext h3

theorem probe_name_ne_append (stem suffix : String) (k : Nat) :
    probe_name stem suffix k ≠ stem ++ suffix := by
  intro h
  have hd := congrArg (fun s => s.data.length) h
  simp only [probe_name, String.data_append, List.length_append] at hd
  have hr := repr_length_pos k
  have hu : ("_" : String).data.length = 1 := rfl
  omega

theorem probe_loop_eq (ex : PathT → Bool) (parent : List String)
    (stem suffix : String) (k : Nat) :
    ∀ (fuel c : Nat), c ≤ k → k - c < fuel →
      ex ⟨parent, probe_name stem suffix k⟩ = false →
      (∀ j, c ≤ j → j < k → ex ⟨parent, probe_name stem suffix j⟩ = true) →
      probe_loop ex parent stem suffix fuel c =
        some ⟨parent, probe_name stem suffix k⟩ := by
  intro fuel
  induction fuel with
  | zero => intro c hc hf _ _; omega
  | succ fuel ih =>
    intro c hc hf hk hbelow
    rw [probe_loop]
    by_cases hck : c = k
    · subst hck
      rw [hk]
      simp
    · have hlt : c < k := by omega
      have hc2 : ex ⟨parent, probe_name stem suffix c⟩ = true :=
        hbelow c le_rfl hlt
      rw [hc2]
      simp only [Bool.true_eq_false, if_neg (by simp : ¬(True : Prop) = False)]
      exact ih (c + 1) (by omega) (by omega) hk
        (fun j hj1 hj2 => hbelow j (by omega) hj2)

theorem exists_free_counter (S : List PathT) (parent : List String)
    (stem suffix : String) :
    ∃ k, (1 ≤ k ∧ (⟨parent, probe_name stem suffix k⟩ : PathT) ∉ S) ∧
      k ≤ S.length + 1 := by
  by_contra hall
  push_neg at hall
  have hinj : Function.Injective
      (fun k : Nat => (⟨parent, probe_name stem suffix k⟩ : PathT)) := by
    intro a b hab
    exact probe_name_injective stem suffix (congrArg PathT.name hab)
  have hsub : (Finset.Icc 1 (S.length + 1)).image
      (fun k => (⟨parent, probe_name stem suffix k⟩ : PathT)) ⊆ S.toFinset := by
    intro p hp
    simp only [Finset.mem_image, Finset.mem_Icc] at hp
    obtain ⟨k, ⟨hk1, hk2⟩, rfl⟩ := hp
    rw [List.mem_toFinset]
    by_contra hnot
    exact absurd hk2 (Nat.not_le.mpr (hall k ⟨hk1, hnot⟩))
  have hcard := Finset.card_le_card hsub
  rw [Finset.card_image_of_injective _ hinj, Nat.card_Icc] at hcard
  have hlen := S.toFinset_card_le
  omega

theorem exists_free_counter1 (S : List PathT) (parent : List String)
    (stem suffix : String) :
    ∃ k, 1 ≤ k ∧ (⟨parent, probe_name stem suffix k⟩ : PathT) ∉ S := by
  obtain ⟨k, hk, _⟩ := exists_free_counter S parent stem suffix
  exact ⟨k, hk⟩

/-- The least counter ≥ 1 whose probe name is not taken in S. -/
def least_free_counter (S : List PathT) (parent : List String)
    (stem suffix : String) : Nat :=
  Nat.find (exists_free_counter1 S parent stem suffix)

theorem least_free_counter_spec (S : List PathT) (parent : List String)
    (stem suffix : String) :
    1 ≤ least_free_counter S parent stem suffix ∧
    least_free_counter S parent stem suffix ≤ S.length + 1 ∧
    (⟨parent, probe_name stem suffix
      (least_free_counter S parent stem suffix)⟩ : PathT) ∉ S ∧
    ∀ j, 1 ≤ j → j < least_free_counter S parent stem suffix →
      (⟨parent, probe_name stem suffix j⟩ : PathT) ∈ S := by
  have hspec := Nat.find_spec (exists_free_counter1 S parent stem suffix)
  refine ⟨hspec.1, ?_, hspec.2, ?_⟩
  · obtain ⟨k, hk, hk2⟩ := exists_free_counter S parent stem suffix
    exact le_trans (Nat.find_min' _ hk) hk2
  · intro j hj1 hj2
    have := Nat.find_min (exists_free_counter1 S parent stem suffix) hj2
    by_contra hnot
    exact this ⟨hj1, hnot⟩

theorem resolve_collision_fs_not_mem {S : List PathT} {t : PathT}
    (h : t ∉ S) : resolve_collision_fs S t = t := by
  rw [resolve_collision_fs, resolve_collision]
  rw [decide_eq_false h]
  simp

theorem resolve_collision_fs_mem {S : List PathT} {t : PathT} (h : t ∈ S) :
    resolve_collision_fs S t =
      ⟨t.dirs, probe_name (stemOf t.name) (suffixOf t.name)
        (least_free_counter S t.dirs (stemOf t.name) (suffixOf t.name))⟩ := by
  obtain ⟨h1, h2, h3, h4⟩ :=
    least_free_counter_spec S t.dirs (stemOf t.name) (suffixOf t.name)
  rw [resolve_collision_fs, resolve_collision, decide_eq_true h]
  simp only [Bool.true_eq_false, if_neg (by simp : ¬(True : Prop) = False)]
  rw [probe_loop_eq (fun p => decide (p ∈ S)) t.dirs (stemOf t.name)
    (suffixOf t.name) (least_free_counter S t.dirs (stemOf t.name)
      (suffixOf t.name)) (S.length + 1) 1 h1 (by omega)
    (decide_eq_false h3) (fun j hj1 hj2 => decide_eq_true (h4 j hj1 hj2))]
  rfl

/-! ## The sequential collision law

`assign_names` models N files resolving to the same computed target path,
each being materialized at its resolved destination before the next file's
collision resolution runs (as in the single-file driver's
resolve-then-copy loop). -/

/-- Resolve a target N times, materializing each result. -/
def assign_names (dest : List PathT) (target : PathT) : Nat → List PathT
  | 0 => []
  | n + 1 =>
    let p := resolve_collision_fs dest target
    p :: assign_names (p :: dest) target n

/-- The name the k-th same-target file should receive:
    target itself, then stem_1, stem_2, ... -/
def collName (target : PathT) : Nat → PathT
  | 0 => target
  | k + 1 =>
    ⟨target.dirs, probe_name (stemOf target.name) (suffixOf target.name) (k + 1)⟩

/-- For k ≥ 1, collName is the probe-name path. -/
theorem collName_pos (target : PathT) {k : Nat} (hk : 1 ≤ k) :
    collName target k =
      ⟨target.dirs, probe_name (stemOf target.name) (suffixOf target.name) k⟩ := by
  obtain ⟨k0, rfl⟩ : ∃ k0, k = k0 + 1 := ⟨k - 1, by omega⟩
  rfl

theorem collName_injective (target : PathT) :
    Function.Injective (collName target) := by
  intro a b h
  match a, b with
  | 0, 0 => rfl
  | 0, k + 1 =>
    exfalso
    have hn : target.name =
        probe_name (stemOf target.name) (suffixOf target.name) (k + 1) :=
      congrArg PathT.name h
    exact probe_name_ne_append (stemOf target.name) (suffixOf target.name)
      (k + 1) (hn.symm.trans (stem_append_suffix target.name).symm)
  | j + 1, 0 =>
    exfalso
    have hn : probe_name (stemOf target.name) (suffixOf target.name) (j + 1) =
        target.name :=
      congrArg PathT.name h
    exact probe_name_ne_append (stemOf target.name) (suffixOf target.name)
      (j + 1) (hn.trans (stem_append_suffix target.name).symm)
  | j + 1, k + 1 =>
    have hn := congrArg PathT.name h
    have := probe_name_injective (stemOf target.name) (suffixOf target.name) hn
    omega

theorem assign_names_gen (target : PathT) :
    ∀ (m i : Nat) (dest : List PathT),
      (∀ j, j < i → collName target j ∈ dest) →
      (∀ j, i ≤ j → j < i + m → collName target j ∉ dest) →
      assign_names dest target m =
        (List.range m).map (fun t => collName target (i + t)) := by
  intro m
  induction m with
  | zero => intro i dest _ _; rfl
  | succ m ih =>
    intro i dest hin hout
    have hfirst : resolve_collision_fs dest target = collName target i := by
      by_cases hi : i = 0
      · subst hi
        have ht : target ∉ dest := hout 0 le_rfl (by omega)
        rw [resolve_collision_fs_not_mem ht]
        rfl
      · obtain ⟨i0, rfl⟩ : ∃ i0, i = i0 + 1 := ⟨i - 1, by omega⟩
        have ht : target ∈ dest := hin 0 (by omega)
        rw [resolve_collision_fs_mem ht]
        have hleast : least_free_counter dest target.dirs (stemOf target.name)
            (suffixOf target.name) = i0 + 1 := by
          obtain ⟨h1, h2, h3, h4⟩ := least_free_counter_spec dest target.dirs
            (stemOf target.name) (suffixOf target.name)
          rcases Nat.lt_trichotomy (least_free_counter dest target.dirs
            (stemOf target.name) (suffixOf target.name)) (i0 + 1)
            with hlt | heq | hgt
          · -- the least counter is below i0+1, but all those names are taken
            exfalso
            have hm := hin (least_free_counter dest target.dirs
              (stemOf target.name) (suffixOf target.name)) (by omega)
            rw [collName_pos target h1] at hm
            exact h3 hm
          · exact heq
          · -- i0+1 itself is free, contradicting minimality
            exfalso
            have hfree := hout (i0 + 1) le_rfl (by omega)
            rw [collName_pos target (by omega)] at hfree
            exact hfree (h4 (i0 + 1) (by omega) (by omega))
        rw [hleast]
        exact (collName_pos target (by omega)).symm
    rw [assign_names]
    rw [hfirst]
    rw [ih (i + 1) (collName target i :: dest)
      (by
        intro j hj
        rcases Nat.lt_or_ge j i with hji | hji
        · exact List.mem_cons_of_mem _ (hin j hji)
        · have : j = i := by omega
          subst this
          exact List.mem_cons_self _ _)
      (by
        intro j hj1 hj2
        intro hmem
        rcases List.mem_cons.mp hmem with heq | hmem2
        · have := collName_injective target heq
          omega
        · exact hout j (by omega) (by omega) hmem2)]
    rw [List.range_succ_eq_map]
    simp only [List.map_cons, List.map_map]
    congr 1
    apply List.map_congr_left
    intro a _
    show collName target (i + 1 + a) = collName target (i + (a + 1))
    congr 1
    omega

/-- The N-files collision law: starting from a destination containing none
    of the N names, N same-target resolutions (each materialized before the
    next) yield exactly target, stem_1, ..., stem_(N-1), pairwise distinct. -/
theorem assign_names_law (target : PathT) (N : Nat) (dest : List PathT)
    (h : ∀ k, k < N → collName target k ∉ dest) :
    assign_names dest target N = (List.range N).map (collName target) ∧
      ((List.range N).map (collName target)).Nodup := by
  constructor
  · have := assign_names_gen target N 0 dest (by omega) (by
      intro j _ hj2
      exact h j (by omega))
    rw [this]
    apply List.map_congr_left
    intro a _
    show collName target (0 + a) = collName target a
    congr 1
    omega
  · exact (List.nodup_range N).map (collName_injective target)

/-! ## Shared helper lemmas for the claim theorems -/

theorem flatten_nil_of_forall {α : Type} {l : List (List α)}
    (h : ∀ x ∈ l, x = []) : l.flatten = [] := by
  induction l with
  | nil => rfl
  | cons a l ih =>
    rw [List.flatten_cons, h a (List.mem_cons_self _ _), List.nil_append]
    exact ih (fun x hx => h x (List.mem_cons_of_mem _ hx))

/-- add_file on a path that already has a row returns that row's id and
    leaves the store untouched. -/
theorem add_file_existing {db : DB} {path : PathT} {r : FileRow}
    (hnodup : (db.files.map (fun x => x.source_path)).Nodup)
    (hmem : r ∈ db.files) (hpath : r.source_path = path)
    (mt : MediaType) (sz : Nat) (mtime : ℚ) :
    add_file db path mt sz mtime = (r.id, db) := by
  have hfind : db.files.find? (fun x => decide (x.source_path = path)) = some r := by
    have hsome : (db.files.find? (fun x => decide (x.source_path = path))).isSome := by
      rw [List.find?_isSome]
      exact ⟨r, hmem, by simp [hpath]⟩
    obtain ⟨r2, hr2⟩ := Option.isSome_iff_exists.mp hsome
    have hr2mem := List.mem_of_find?_eq_some hr2
    have hr2p : r2.source_path = path := by
      have := List.find?_some hr2
      simpa using this
    have : r2 = r :=
      List.inj_on_of_nodup_map hnodup hr2mem hmem (by rw [hr2p, hpath])
    rw [← this]
    exact hr2
  rw [add_file, hfind]

/-- Re-running Discovery over already-registered paths is a no-op. -/
theorem phase_discovery_idempotent (env : Env) (files : List PathT) (db : DB)
    (hnodup : (db.files.map (fun x => x.source_path)).Nodup)
    (hall : ∀ p ∈ files, ∃ r ∈ db.files, r.source_path = p) :
    phase_discovery env files db = db := by
  induction files with
  | nil => rfl
  | cons p ps ih =>
    rw [phase_discovery, List.foldl_cons]
    by_cases hsp : should_process p (get_media_type p.name)
    · obtain ⟨r, hr, hrp⟩ := hall p (List.mem_cons_self _ _)
      rw [if_pos hsp,
        add_file_existing hnodup hr hrp (get_media_type p.name)
          (env.stat_size p) (env.stat_mtime p)]
      exact ih (fun q hq => hall q (List.mem_cons_of_mem _ hq))
    · rw [if_neg hsp]
      exact ih (fun q hq => hall q (List.mem_cons_of_mem _ hq))

/-! ## C1 -/

/-- C1: the merged timestamp is chosen by fixed priority — the embedded
    timestamp if valid (local calendar year ≥ 1999, within datetime's
    representable range), else the sidecar timestamp if valid by the same
    test, else the filesystem modification time; on the spec's examples
    (embedded 2022 / sidecar 2021 / mtime 2020; embedded absent; embedded
    1990 invalid; both invalid) the resolved years are 2022, 2021, 2021 and
    2020. -/
theorem c1_timestamp_priority :
    (∀ (tz : Int) (mtime : ℚ) (mts jts : Option ℚ) (t : ℚ),
      (mts = some t → is_valid_timestamp tz mts = true →
        determine_timestamp tz mtime mts jts = t) ∧
      (is_valid_timestamp tz mts = false → jts = some t →
        is_valid_timestamp tz jts = true →
        determine_timestamp tz mtime mts jts = t) ∧
      (is_valid_timestamp tz mts = false → is_valid_timestamp tz jts = false →
        determine_timestamp tz mtime mts jts = mtime)) ∧
    determine_timestamp 0 1577836800 (some 1640995200) (some 1609459200) =
      1640995200 ∧
    localYearOf 0 (determine_timestamp 0 1577836800 (some 1640995200)
      (some 1609459200)) = 2022 ∧
    determine_timestamp 0 1577836800 none (some 1609459200) = 1609459200 ∧
    localYearOf 0 (determine_timestamp 0 1577836800 none (some 1609459200)) =
      2021 ∧
    is_valid_timestamp 0 (some 631152000) = false ∧
    determine_timestamp 0 1577836800 (some 631152000) (some 1609459200) =
      1609459200 ∧
    determine_timestamp 0 1577836800 (some 631152000) none = 1577836800 ∧
    localYearOf 0 (determine_timestamp 0 1577836800 (some 631152000) none) =
      2020 := by
  refine ⟨?_, by decide, by decide, by decide, by decide, by decide,
    by decide, by decide, by decide⟩
  intro tz mtime mts jts t
  refine ⟨?_, ?_, ?_⟩
  · intro hm hv
    rw [determine_timestamp, if_pos hv, hm]
    rfl
  · intro hnv hj hv
    rw [determine_timestamp, if_neg (by simp [hnv]), if_pos hv, hj]
    rfl
  · intro h1 h2
    rw [determine_timestamp, if_neg (by simp [h1]), if_neg (by simp [h2])]

/-- C1 witness: the priority theorem applied at the spec's first example. -/
theorem c1_timestamp_priority_witness :
    determine_timestamp 0 1577836800 (some 1640995200) (some 1609459200) =
      1640995200 :=
  (c1_timestamp_priority.1 0 1577836800 (some 1640995200) (some 1609459200)
    1640995200).1 rfl (by decide)

/-! ## C9 -/

/-- C9: the collision probe has no cap: with every probed name already
    existing, resolve_collision returns no result within any finite number
    of loop iterations (the `while True` loop runs forever), and no
    CollisionResolutionExhaustion error exists anywhere in the code. -/
theorem c9_unbounded_probe :
    ∀ (fuel : Nat) (t : PathT),
      resolve_collision (fun _ => true) fuel t = none := by
  have hloop : ∀ (parent : List String) (stem suffix : String)
      (fuel c : Nat),
      probe_loop (fun _ => true) parent stem suffix fuel c = none := by
    intro parent stem suffix fuel
    induction fuel with
    | zero => intro c; rfl
    | succ fuel ih =>
      intro c
      rw [probe_loop]
      simp only [Bool.true_eq_false, if_neg (by simp : ¬(True : Prop) = False)]
      exact ih (c + 1)
  intro fuel t
  rw [resolve_collision]
  simp only [Bool.true_eq_false, if_neg (by simp : ¬(True : Prop) = False)]
  exact hloop t.dirs (stemOf t.name) (suffixOf t.name) fuel 1

/-! ## C10 -/

/-- C10: sidecar GPS is extracted only when geoData has all three of
    latitude, longitude and altitude: if the altitude key is missing, the
    parsed record carries no GPS at all, even for a well-formed non-zero
    lat/lon pair. -/
theorem c10_gps_requires_altitude :
    (∀ (d : SidecarJson) (geo : GeoJson) (lat lon : ℚ),
      d.geoData = some geo → geo.latitude = some lat →
      geo.longitude = some lon → geo.altitude = none →
      extract_gps_from_json d = none ∧ (parse_json_sidecar d).gps = none) ∧
    extract_gps_from_json
      { geoData := some { latitude := some (mkRat 377749 10000),
                          longitude := some (mkRat 1224194 10000) } } =
      none := by
  constructor
  · intro d geo lat lon hg hlat hlon halt
    have h1 : extract_gps_from_json d = none := by
      rw [extract_gps_from_json, hg]
      simp only [hlat, hlon, halt]
    exact ⟨h1, by rw [parse_json_sidecar]; simpa using h1⟩
  · decide

/-- C10 witness: the theorem applied to a concrete sidecar with a non-zero
    lat/lon pair and no altitude key. -/
theorem c10_gps_requires_altitude_witness :
    extract_gps_from_json
      { geoData := some { latitude := some 37, longitude := some 122 } } =
        none ∧
    (parse_json_sidecar
      { geoData := some { latitude := some 37, longitude := some 122 } }).gps =
        none :=
  c10_gps_requires_altitude.1
    { geoData := some { latitude := some 37, longitude := some 122 } }
    { latitude := some 37, longitude := some 122 } 37 122 rfl rfl rfl rfl

/-! ## C3 -/

/-- C3 counterexample: a sidecar explicitly providing an empty people list,
    against an embedded record with people [Alice, Bob].  The pipeline's
    sidecar extraction drops the explicit empty list (the record's people is
    None), so the merge yields the embedded people — not the claimed []. -/
theorem c3_counterexample :
    (parse_json_sidecar { people := some [] }).people = none ∧
    (merge_metadata 0 0 { people := some ["Alice", "Bob"] }
        (parse_json_sidecar { people := some [] })).people =
      some ["Alice", "Bob"] ∧
    (merge_metadata 0 0 { people := some ["Alice", "Bob"] }
        (parse_json_sidecar { people := some [] })).people ≠ some [] := by
  refine ⟨rfl, rfl, by decide⟩

/-- C3 amended: the merge itself lets the sidecar record's people win
    whenever the field is present — including an explicit empty list — and
    falls back to embedded only when it is absent; but the pipeline's
    sidecar extraction (MetadataHandler._extract_people_from_json) returns a
    people list only when the collected names are non-empty, so an
    explicitly empty sidecar people list reaches the merge as absent and
    the embedded value applies.  (The unused twin extractor
    MediaMetadata._extract_people_from_json does preserve the empty list.) -/
theorem c3_people_merge_amended :
    (∀ (tz : Int) (mtime : ℚ) (media json : MediaMetadata) (l : List String),
      (json.people = some l →
        (merge_metadata tz mtime media json).people = some l) ∧
      (json.people = none →
        (merge_metadata tz mtime media json).people = media.people)) ∧
    (∀ (d : SidecarJson) (persons : List (Option String)),
      d.people = some persons → people_names_of persons = [] →
      (parse_json_sidecar d).people = none) ∧
    (∀ (d : SidecarJson), d.people = some [] →
      ∀ (tz : Int) (mtime : ℚ) (media : MediaMetadata),
        (merge_metadata tz mtime media (parse_json_sidecar d)).people =
          media.people) ∧
    (∀ (d : SidecarJson), d.people = some [] →
      record_extract_people_from_json d = some []) := by
  refine ⟨?_, ?_, ?_, ?_⟩
  · intro tz mtime media json l
    constructor
    · intro h
      rw [merge_metadata]
      simp only [h]
    · intro h
      rw [merge_metadata]
      simp only [h]
  · intro d persons hp hnames
    rw [parse_json_sidecar]
    show extract_people_from_json d = none
    rw [extract_people_from_json, hp]
    simp [hnames]
  · intro d hd tz mtime media
    have hnone : (parse_json_sidecar d).people = none := by
      rw [parse_json_sidecar]
      show extract_people_from_json d = none
      rw [extract_people_from_json, hd]
      simp [people_names_of]
    rw [merge_metadata]
    simp only [hnone]
  · intro d hd
    rw [record_extract_people_from_json, hd]
    rfl

/-- C3 witness: the amended behaviour at concrete inputs — an explicitly
    empty sidecar people list leaves the embedded people in force. -/
theorem c3_people_merge_amended_witness :
    (merge_metadata 0 0 { people := some ["Alice", "Bob"] }
        (parse_json_sidecar { people := some [] })).people =
      ({ people := some ["Alice", "Bob"] } : MediaMetadata).people :=
  c3_people_merge_amended.2.2.1 { people := some [] } rfl 0 0
    { people := some ["Alice", "Bob"] }

/-! ## C4 -/

def c4Media : MediaMetadata :=
  { timestamp := some 1640995200,
    gps := some { latitude := 10, longitude := 20 } }

def c4Json : MediaMetadata :=
  { timestamp := some 1609459200,
    gps := some { latitude := 30, longitude := 40 } }

def c4Merged : MediaMetadata := merge_metadata 0 1577836800 c4Media c4Json

def c4Target : PathT := { dirs := ["dest", "2022", "01"], name := "a.jpg" }

def c4Env : Env :=
  { tz := 0, dest_root := ["dest"], stat_size := fun _ => 0,
    stat_mtime := fun _ => 1577836800, media_meta := fun _ => none,
    json_meta := fun _ => none, extract_error := fun _ => none,
    resolve_error := fun _ => none, exec_error := fun _ => none,
    dest_files := [], extract_metadata := fun _ => {} }

def c4Row : FileRow :=
  { id := 1, source_path := { dirs := ["src"], name := "a.jpg" },
    media_type := get_media_type "a.jpg", file_size := 0, mtime := 1577836800,
    status := FileStatus.TARGET_RESOLVED, phase := ProcessingPhase.RESOLUTION,
    target_path := some c4Target }

/-- The no-exception execution step on a present merged record, unfolded. -/
theorem execute_single_file_some (env : Env) (row : FileRow)
    (m : MediaMetadata) :
    execute_single_file env row (some m) =
      if env.dest_exists (row.target_path.getD { dirs := [], name := "" }) &&
          is_identical m (env.extract_metadata
            (row.target_path.getD { dirs := [], name := "" })) then
        { copied := false }
      else
        { copied := true
          copy_mtime := some (match m.timestamp with
            | some t => if t ≠ 0 then t else env.stat_mtime row.source_path
            | none => env.stat_mtime row.source_path)
          write_op :=
            if (get_media_type row.source_path.name).supports_write then
              some (row.target_path.getD { dirs := [], name := "" },
                get_media_type row.source_path.name, m)
            else none } := rfl

/-- C4 counterexample: a file whose embedded timestamp is valid and where
    both embedded and sidecar supplied GPS; the write op handed to the
    write batch still carries the full merged record — its timestamp and
    GPS fields are present, not suppressed. -/
theorem c4_counterexample :
    is_valid_timestamp c4Env.tz c4Media.timestamp = true ∧
    c4Media.gps.isSome = true ∧ c4Json.gps.isSome = true ∧
    (execute_single_file c4Env c4Row (some c4Merged)).write_op =
      some (c4Target, get_media_type "a.jpg", c4Merged) ∧
    c4Merged.timestamp = some 1640995200 ∧
    c4Merged.gps = some { latitude := 10, longitude := 20 } := by
  decide

/-- C4 amended: the phased pipeline applies no write-suppression — whenever
    Execution emits a tag-write op its payload is exactly the MERGED record,
    whose timestamp field is always populated and whose GPS field is the
    merged GPS; only the legacy single-file script suppresses a field, and
    only the timestamp (when the embedded timestamp is truthy and valid) —
    it never suppresses GPS, people or URL. -/
theorem c4_write_suppression_amended :
    (∀ (env : Env) (row : FileRow) (merged : MediaMetadata) (t : PathT)
        (mt : MediaType) (payload : MediaMetadata),
      (execute_single_file env row (some merged)).write_op =
        some (t, mt, payload) → payload = merged) ∧
    (∀ (tz : Int) (mtime : ℚ) (media json : MediaMetadata),
      (merge_metadata tz mtime media json).timestamp =
        some (determine_timestamp tz mtime media.timestamp json.timestamp) ∧
      (merge_metadata tz mtime media json).gps =
        media.gps.orElse (fun _ => json.gps)) ∧
    (∀ (tz : Int) (mts : Option ℚ) (metadata : MediaMetadata),
      (py_truthy mts && is_valid_timestamp tz mts) = true →
        (legacy_write_payload tz mts metadata).timestamp = none) ∧
    (∀ (tz : Int) (mts : Option ℚ) (metadata : MediaMetadata),
      (legacy_write_payload tz mts metadata).gps = metadata.gps ∧
      (legacy_write_payload tz mts metadata).people = metadata.people ∧
      (legacy_write_payload tz mts metadata).url = metadata.url) := by
  refine ⟨?_, ?_, ?_, ?_⟩
  · intro env row merged t mt payload h
    rw [execute_single_file_some] at h
    split at h
    · exact absurd h (by simp)
    · simp only at h
      split at h
      · simp only [Option.some.injEq, Prod.mk.injEq] at h
        exact h.2.2.symm
      · exact absurd h (by simp)
  · intro tz mtime media json
    exact ⟨rfl, rfl⟩
  · intro tz mts metadata h
    rw [legacy_write_payload, if_pos h]
  · intro tz mts metadata
    rw [legacy_write_payload]
    split <;> exact ⟨rfl, rfl, rfl⟩

/-- C4 witness: the amended theorem applied at the counterexample's
    concrete input (payload = the merged record) and at a legacy-script
    input (timestamp suppressed there). -/
theorem c4_write_suppression_amended_witness :
    c4Merged = c4Merged ∧
    (legacy_write_payload 0 (some 1640995200)
      { timestamp := some 1609459200, url := some "u" }).timestamp = none :=
  ⟨c4_write_suppression_amended.1 c4Env c4Row c4Merged c4Target
      (get_media_type "a.jpg") c4Merged (by decide),
    c4_write_suppression_amended.2.2.1 0 (some 1640995200)
      { timestamp := some 1609459200, url := some "u" } (by decide)⟩

/-! ## C6 -/

/-- C6: source_path is unique in the persisted file set — registering a
    path that already has a row returns that row's id and adds no new row
    (the whole store, statuses included, is unchanged) — and re-running
    Discovery over an unchanged source is a no-op. -/
theorem c6_source_path_unique :
    (∀ (db : DB) (path : PathT) (mt : MediaType) (sz : Nat) (mtime : ℚ)
        (r : FileRow),
      (db.files.map (fun x => x.source_path)).Nodup →
      r ∈ db.files → r.source_path = path →
      add_file db path mt sz mtime = (r.id, db)) ∧
    (∀ (env : Env) (files : List PathT) (db : DB),
      (db.files.map (fun x => x.source_path)).Nodup →
      (∀ p ∈ files, ∃ r ∈ db.files, r.source_path = p) →
      phase_discovery env files db = db) := by
  constructor
  · intro db path mt sz mtime r hnodup hmem hpath
    exact add_file_existing hnodup hmem hpath mt sz mtime
  · intro env files db hnodup hall
    exact phase_discovery_idempotent env files db hnodup hall

def c6Row : FileRow :=
  { id := 7, source_path := { dirs := ["src"], name := "b.jpg" },
    media_type := get_media_type "b.jpg", file_size := 3, mtime := 1577836800,
    status := FileStatus.SUCCESS, phase := ProcessingPhase.EXECUTION }

def c6Db : DB := { files := [c6Row], metadata := [] }

/-- C6 witness: re-registering the only row's path returns id 7 and leaves
    the store unchanged. -/
theorem c6_source_path_unique_witness :
    add_file c6Db { dirs := ["src"], name := "b.jpg" }
      (get_media_type "b.jpg") 3 1577836800 = (7, c6Db) :=
  c6_source_path_unique.1 c6Db { dirs := ["src"], name := "b.jpg" }
    (get_media_type "b.jpg") 3 1577836800 c6Row (by decide)
    (List.mem_singleton_self c6Row) rfl

/-! ## C5 -/

/-- The status transitions the spec's state machine allows. -/
def allowed_step (s1 s2 : FileStatus) : Prop :=
  (s1 = FileStatus.NEW ∧ s2 = FileStatus.METADATA_READ) ∨
  (s1 = FileStatus.NEW ∧ s2 = FileStatus.FAILED) ∨
  (s1 = FileStatus.METADATA_READ ∧ s2 = FileStatus.TARGET_RESOLVED) ∨
  (s1 = FileStatus.METADATA_READ ∧ s2 = FileStatus.FAILED) ∨
  (s1 = FileStatus.TARGET_RESOLVED ∧ s2 = FileStatus.SUCCESS) ∨
  (s1 = FileStatus.TARGET_RESOLVED ∧ s2 = FileStatus.FAILED) ∨
  (s1 = FileStatus.FAILED ∧ s2 = FileStatus.FAILED) ∨
  (s1 = FileStatus.SUCCESS ∧ s2 = FileStatus.SUCCESS)

/-- C5: the per-row status machine.  The phases are row-wise maps; a phase
    leaves every row whose status is not its precondition untouched (so
    FAILED and SUCCESS are absorbing, and a FAILED row is matched by none
    of the phase queries); and a NEW row's status trace through the three
    phases takes only allowed transitions — one phase forward or to FAILED,
    no phase skipped — records the phase and error message whenever it
    fails, and ends terminal (SUCCESS or FAILED). -/
theorem c5_status_machine (env : Env) (db : DB) :
    ((phase_metadata_extraction env db).files =
      db.files.map (extract_row env)) ∧
    ((phase_resolution env db).files = db.files.map (resolve_row env db)) ∧
    ((phase_execution env db).1.files =
      db.files.map (fun r => (exec_row env db r).1)) ∧
    (∀ r : FileRow, r.status ≠ FileStatus.NEW → extract_row env r = r) ∧
    (∀ r : FileRow, r.status ≠ FileStatus.METADATA_READ →
      resolve_row env db r = r) ∧
    (∀ r : FileRow, r.status ≠ FileStatus.TARGET_RESOLVED →
      (exec_row env db r).1 = r) ∧
    (∀ r : FileRow, r.status = FileStatus.FAILED →
      r ∉ get_files_by_status db [FileStatus.NEW] ∧
      r ∉ get_files_by_status db [FileStatus.METADATA_READ] ∧
      r ∉ get_files_by_status db [FileStatus.TARGET_RESOLVED]) ∧
    (∀ (db2 db3 : DB) (r : FileRow), r.status = FileStatus.NEW →
      allowed_step r.status (extract_row env r).status ∧
      allowed_step (extract_row env r).status
        (resolve_row env db2 (extract_row env r)).status ∧
      allowed_step (resolve_row env db2 (extract_row env r)).status
        (exec_row env db3 (resolve_row env db2 (extract_row env r))).1.status ∧
      ((extract_row env r).status = FileStatus.FAILED →
        (extract_row env r).phase = ProcessingPhase.METADATA_READ ∧
        (extract_row env r).error_message.isSome) ∧
      ((resolve_row env db2 (extract_row env r)).status = FileStatus.FAILED →
        (resolve_row env db2 (extract_row env r)).phase =
            ProcessingPhase.METADATA_READ ∨
          ((resolve_row env db2 (extract_row env r)).phase =
              ProcessingPhase.RESOLUTION ∧
            (resolve_row env db2 (extract_row env r)).error_message.isSome)) ∧
      ((exec_row env db3 (resolve_row env db2 (extract_row env r))).1.status =
          FileStatus.FAILED →
        (exec_row env db3
            (resolve_row env db2 (extract_row env r))).1.error_message.isSome) ∧
      ((exec_row env db3 (resolve_row env db2 (extract_row env r))).1.status =
          FileStatus.SUCCESS ∨
        (exec_row env db3 (resolve_row env db2 (extract_row env r))).1.status =
          FileStatus.FAILED)) := by
  refine ⟨rfl, rfl, by simp [phase_execution, List.map_map, Function.comp],
    ?_, ?_, ?_, ?_, ?_⟩
  · intro r h
    rw [extract_row, if_neg h]
  · intro r h
    rw [resolve_row, if_neg h]
  · intro r h
    rw [exec_row, if_neg h]
  · intro r h
    refine ⟨?_, ?_, ?_⟩ <;>
      · rw [get_files_by_status]
        intro hmem
        have := (List.mem_filter.mp hmem).2
        simp [h] at this
  · intro db2 db3 r hnew
    rw [extract_row, if_pos hnew]
    cases henv : env.extract_error r.id with
    | some e =>
      rw [show (resolve_row env db2
          { r with status := FileStatus.FAILED,
                   phase := ProcessingPhase.METADATA_READ,
                   error_message := some e }) =
          { r with status := FileStatus.FAILED,
                   phase := ProcessingPhase.METADATA_READ,
                   error_message := some e } from by
        rw [resolve_row, if_neg (by simp)]]
      rw [show (exec_row env db3
          { r with status := FileStatus.FAILED,
                   phase := ProcessingPhase.METADATA_READ,
                   error_message := some e }).1 =
          { r with status := FileStatus.FAILED,
                   phase := ProcessingPhase.METADATA_READ,
                   error_message := some e } from by
        rw [exec_row, if_neg (by simp)]]
      refine ⟨?_, ?_, ?_, ?_, ?_, ?_, ?_⟩ <;>
        simp [allowed_step, hnew]
    | none =>
      rw [show (resolve_row env db2
          { r with status := FileStatus.METADATA_READ,
                   phase := ProcessingPhase.METADATA_READ,
                   error_message := none }) =
          resolve_row env db2
            { r with status := FileStatus.METADATA_READ,
                     phase := ProcessingPhase.METADATA_READ,
                     error_message := none } from rfl]
      rw [resolve_row, if_pos rfl]
      cases henv2 : env.resolve_error r.id with
      | some e =>
        simp only []
        rw [show (exec_row env db3
            { r with status := FileStatus.FAILED,
                     phase := ProcessingPhase.RESOLUTION,
                     error_message := some e }).1 =
            { r with status := FileStatus.FAILED,
                     phase := ProcessingPhase.RESOLUTION,
                     error_message := some e } from by
          rw [exec_row, if_neg (by simp)]]
        refine ⟨?_, ?_, ?_, ?_, ?_, ?_, ?_⟩ <;>
          simp [allowed_step, hnew]
      | none =>
        simp only []
        rw [exec_row, if_pos rfl]
        cases henv3 : env.exec_error r.id with
        | some e =>
          refine ⟨?_, ?_, ?_, ?_, ?_, ?_, ?_⟩ <;>
            simp [allowed_step, hnew]
        | none =>
          refine ⟨?_, ?_, ?_, ?_, ?_, ?_, ?_⟩ <;>
            simp [allowed_step, hnew]

def c5Env : Env :=
  { tz := 0, dest_root := ["dest"], stat_size := fun _ => 0,
    stat_mtime := fun _ => 1672531200, media_meta := fun _ => none,
    json_meta := fun _ => none, extract_error := fun _ => none,
    resolve_error := fun _ => none, exec_error := fun _ => none,
    dest_files := [], extract_metadata := fun _ => {} }

def c5Row : FileRow :=
  { id := 1, source_path := { dirs := ["src"], name := "photo.jpg" },
    media_type := get_media_type "photo.jpg", file_size := 5,
    mtime := 1672531200, status := FileStatus.NEW,
    phase := ProcessingPhase.DISCOVERY }

def c5Db : DB := { files := [c5Row], metadata := [] }

/-- C5 witness: the state-machine theorem applied to a one-row store with a
    NEW row and an error-free environment. -/
theorem c5_status_machine_witness :
    allowed_step c5Row.status (extract_row c5Env c5Row).status ∧
    ((exec_row c5Env c5Db
        (resolve_row c5Env c5Db (extract_row c5Env c5Row))).1.status =
        FileStatus.SUCCESS ∨
      (exec_row c5Env c5Db
        (resolve_row c5Env c5Db (extract_row c5Env c5Row))).1.status =
        FileStatus.FAILED) :=
  ⟨((c5_status_machine c5Env c5Db).2.2.2.2.2.2.2 c5Db c5Db c5Row rfl).1,
    ((c5_status_machine c5Env c5Db).2.2.2.2.2.2.2 c5Db c5Db c5Row
      rfl).2.2.2.2.2.2⟩

/-! ## C2 -/

/-- A terminal-status row is untouched by execution and has the inert
    outcome. -/
theorem exec_row_terminal {env : Env} {db : DB} {r : FileRow}
    (h : r.status = FileStatus.SUCCESS ∨ r.status = FileStatus.FAILED) :
    exec_row env db r = (r, { copied := false }) := by
  rcases h with h | h <;> rw [exec_row, if_neg (by simp [h])]

/-- C2: (skip) a TARGET_RESOLVED row whose target already exists with
    metadata approximately identical to its MERGED record performs no byte
    copy and emits no tag-write op, yet still advances to SUCCESS; and
    (idempotence) running the whole pipeline over an unchanged source
    against a store whose rows are all terminal performs zero copies and
    zero tag writes and leaves the store unchanged. -/
theorem c2_skip_identical_and_idempotent :
    (∀ (env : Env) (db : DB) (r : FileRow) (t : PathT) (m : MediaMetadata),
      r.status = FileStatus.TARGET_RESOLVED →
      env.exec_error r.id = none →
      r.target_path = some t →
      get_metadata db r.id MetaSource.MERGED = some m →
      env.dest_exists t = true →
      is_identical m (env.extract_metadata t) = true →
      exec_row env db r =
        ({ r with status := FileStatus.SUCCESS,
                  phase := ProcessingPhase.EXECUTION, error_message := none },
         { copied := false })) ∧
    (∀ (env : Env) (files : List PathT) (db : DB),
      (∀ r ∈ db.files, r.status = FileStatus.SUCCESS ∨
        r.status = FileStatus.FAILED) →
      (db.files.map (fun x => x.source_path)).Nodup →
      (∀ p ∈ files, ∃ r ∈ db.files, r.source_path = p) →
      run_pipeline env files db = (db, 0, 0)) := by
  constructor
  · intro env db r t m hst herr htp hmer hde hid
    rw [exec_row, if_pos hst, herr]
    simp only [hmer]
    congr 1
    rw [execute_single_file_some, htp]
    simp only [Option.getD_some]
    rw [if_pos (by rw [hde, hid]; rfl)]
  · intro env files db hterm hnodup hall
    have hrows_ex : db.files.map (extract_row env) = db.files := by
      have hid2 : ∀ r ∈ db.files, extract_row env r = id r := by
        intro r hr
        rcases hterm r hr with h | h <;> rw [extract_row, if_neg (by simp [h])] <;> rfl
      rw [List.map_congr_left hid2, List.map_id]
    have hdb2 : phase_metadata_extraction env db = db := by
      rw [phase_metadata_extraction]
      have hmeta : (db.files.map (extract_saves env)).flatten = [] := by
        apply flatten_nil_of_forall
        intro x hx
        obtain ⟨r, hr, rfl⟩ := List.mem_map.mp hx
        rw [extract_saves, if_neg (by
          rcases hterm r hr with h | h <;> simp [h])]
      rw [hrows_ex, hmeta, List.append_nil]
    have hrows_res : db.files.map (resolve_row env db) = db.files := by
      have hid2 : ∀ r ∈ db.files, resolve_row env db r = id r := by
        intro r hr
        rcases hterm r hr with h | h <;> rw [resolve_row, if_neg (by simp [h])] <;> rfl
      rw [List.map_congr_left hid2, List.map_id]
    have hdb3 : phase_resolution env db = db := by
      rw [phase_resolution]
      have hmeta : (db.files.map (resolve_saves env db)).flatten = [] := by
        apply flatten_nil_of_forall
        intro x hx
        obtain ⟨r, hr, rfl⟩ := List.mem_map.mp hx
        rw [resolve_saves, if_neg (by
          rcases hterm r hr with h | h <;> simp [h])]
      rw [hrows_res, hmeta, List.append_nil]
    have hresults : db.files.map (exec_row env db) =
        db.files.map (fun r => (r, ({ copied := false } : ExecOutcome))) :=
      List.map_congr_left (fun r hr => exec_row_terminal (hterm r hr))
    have hexec : phase_execution env db = (db, 0, 0) := by
      rw [phase_execution]
      rw [hresults]
      have h1 : (db.files.map
          (fun r => (r, ({ copied := false } : ExecOutcome)))).map
            (fun p => p.1) = db.files := by
        rw [List.map_map]
        exact List.map_id db.files
      have h2 : (db.files.map
          (fun r => (r, ({ copied := false } : ExecOutcome)))).filter
            (fun p => p.2.copied) = [] := by
        rw [List.filter_eq_nil_iff]
        intro a ha
        obtain ⟨r, _, rfl⟩ := List.mem_map.mp ha
        simp
      have h3 : (db.files.map
          (fun r => (r, ({ copied := false } : ExecOutcome)))).filter
            (fun p => p.2.write_op.isSome) = [] := by
        rw [List.filter_eq_nil_iff]
        intro a ha
        obtain ⟨r, _, rfl⟩ := List.mem_map.mp ha
        simp
      rw [h1, h2, h3]
      rfl
    rw [run_pipeline, phase_discovery_idempotent env files db hnodup hall,
      hdb2, hdb3, hexec]

def c2Target : PathT := { dirs := ["dest", "2023", "01"], name := "photo.jpg" }

def c2Merged : MediaMetadata := { timestamp := some 1672531200, url := some "u" }

def c2Env : Env :=
  { tz := 0, dest_root := ["dest"], stat_size := fun _ => 0,
    stat_mtime := fun _ => 1672531200, media_meta := fun _ => none,
    json_meta := fun _ => none, extract_error := fun _ => none,
    resolve_error := fun _ => none, exec_error := fun _ => none,
    dest_files := [c2Target], extract_metadata := fun _ => c2Merged }

def c2Row : FileRow :=
  { id := 1, source_path := { dirs := ["src"], name := "photo.jpg" },
    media_type := get_media_type "photo.jpg", file_size := 4,
    mtime := 1672531200, status := FileStatus.TARGET_RESOLVED,
    phase := ProcessingPhase.RESOLUTION, target_path := some c2Target }

def c2Db : DB :=
  { files := [c2Row], metadata := [(1, MetaSource.MERGED, c2Merged)] }

def c2DoneRow : FileRow :=
  { c2Row with status := FileStatus.SUCCESS,
               phase := ProcessingPhase.EXECUTION }

def c2DoneDb : DB :=
  { files := [c2DoneRow], metadata := [(1, MetaSource.MERGED, c2Merged)] }

/-- C2 witness: the theorem applied to a concrete already-materialized
    target (no copy, no write op, row advances to SUCCESS) and to a second
    full run over the finished store (zero copies, zero writes). -/
theorem c2_skip_identical_and_idempotent_witness :
    exec_row c2Env c2Db c2Row =
      ({ c2Row with status := FileStatus.SUCCESS,
                    phase := ProcessingPhase.EXECUTION,
                    error_message := none },
       { copied := false }) ∧
    run_pipeline c2Env [c2Row.source_path] c2DoneDb = (c2DoneDb, 0, 0) :=
  ⟨c2_skip_identical_and_idempotent.1 c2Env c2Db c2Row c2Target c2Merged rfl
      rfl rfl (by decide) (by decide) (by decide),
    c2_skip_identical_and_idempotent.2 c2Env [c2Row.source_path] c2DoneDb
      (by decide) (by decide) (by decide)⟩

/-! ## C7 -/

def c7Env : Env :=
  { tz := 0, dest_root := ["dest"], stat_size := fun _ => 0,
    stat_mtime := fun _ => 1672531200, media_meta := fun _ => none,
    json_meta := fun _ => none, extract_error := fun _ => none,
    resolve_error := fun _ => none, exec_error := fun _ => none,
    dest_files := [], extract_metadata := fun _ => {} }

def c7RowA : FileRow :=
  { id := 1, source_path := { dirs := ["a"], name := "dup.jpg" },
    media_type := get_media_type "dup.jpg", file_size := 1,
    mtime := 1672531200, status := FileStatus.NEW,
    phase := ProcessingPhase.DISCOVERY }

def c7RowB : FileRow :=
  { id := 2, source_path := { dirs := ["b"], name := "dup.jpg" },
    media_type := get_media_type "dup.jpg", file_size := 1,
    mtime := 1672531200, status := FileStatus.NEW,
    phase := ProcessingPhase.DISCOVERY }

def c7Db : DB := { files := [c7RowA, c7RowB], metadata := [] }

def c7Target : PathT := { dirs := ["dest", "2023", "01"], name := "dup.jpg" }

/-- C7 counterexample: two files of one batch resolving to the same
    computed path.  The phased pipeline resolves both targets before any
    copy exists on disk, so both rows get the same resolved name — not the
    claimed two distinct names dup.jpg and dup_1.jpg. -/
theorem c7_counterexample :
    ((phase_resolution c7Env (phase_metadata_extraction c7Env c7Db)).files.map
        (fun r => r.target_path)) = [some c7Target, some c7Target] ∧
    collName c7Target 1 = { dirs := ["dest", "2023", "01"], name := "dup_1.jpg" } ∧
    ((phase_resolution c7Env (phase_metadata_extraction c7Env c7Db)).files.map
        (fun r => r.target_path)) ≠
      [some (collName c7Target 0), some (collName c7Target 1)] := by
  decide

/-- C7 amended: the target path is `<dest root>/<YYYY>/<MM>/<filename>`
    from the local calendar date of the merged timestamp, with a `.mp`
    suffix rewritten to `.mp4`; collision resolution returns the target
    when free, else probes `_1`, `_2`, ... from 1 and returns the least
    free counter's name; and N files resolving to the same path receive
    the N distinct names {name.ext, name_1.ext, ..., name_(N-1).ext}
    provided each resolved file is materialized at its target before the
    next file's resolution runs (as in the single-file driver) — in the
    phased pipeline, where all resolutions precede all copies, same-batch
    duplicates instead share one name (see the counterexample). -/
theorem c7_target_and_collision_amended :
    (∀ (tz : Int) (root : List String) (ts : ℚ) (name : String),
      (get_target_path tz root ts name).dirs =
        root ++ [yearStr (localYearOf tz ts), monthStr (localMonthOf tz ts)] ∧
      (strToLower (suffixOf name) = ".mp" →
        (get_target_path tz root ts name).name = stemOf name ++ ".mp4") ∧
      (strToLower (suffixOf name) ≠ ".mp" →
        (get_target_path tz root ts name).name = name)) ∧
    (∀ (S : List PathT) (t : PathT), t ∉ S → resolve_collision_fs S t = t) ∧
    (∀ (S : List PathT) (t : PathT), t ∈ S →
      1 ≤ least_free_counter S t.dirs (stemOf t.name) (suffixOf t.name) ∧
      resolve_collision_fs S t =
        ⟨t.dirs, probe_name (stemOf t.name) (suffixOf t.name)
          (least_free_counter S t.dirs (stemOf t.name) (suffixOf t.name))⟩ ∧
      (⟨t.dirs, probe_name (stemOf t.name) (suffixOf t.name)
          (least_free_counter S t.dirs (stemOf t.name) (suffixOf t.name))⟩ :
        PathT) ∉ S ∧
      (∀ j, 1 ≤ j →
        j < least_free_counter S t.dirs (stemOf t.name) (suffixOf t.name) →
        (⟨t.dirs, probe_name (stemOf t.name) (suffixOf t.name) j⟩ : PathT)
          ∈ S)) ∧
    (∀ (target : PathT) (N : Nat) (dest : List PathT),
      (∀ k, k < N → collName target k ∉ dest) →
      assign_names dest target N = (List.range N).map (collName target) ∧
      ((List.range N).map (collName target)).Nodup) := by
  refine ⟨?_, ?_, ?_, ?_⟩
  · intro tz root ts name
    refine ⟨rfl, ?_, ?_⟩
    · intro h
      rw [get_target_path]
      simp only [h, if_pos rfl]
      rfl
    · intro h
      rw [get_target_path]
      simp only [if_neg h]
  · intro S t h
    exact resolve_collision_fs_not_mem h
  · intro S t h
    obtain ⟨h1, h2, h3, h4⟩ :=
      least_free_counter_spec S t.dirs (stemOf t.name) (suffixOf t.name)
    exact ⟨h1, resolve_collision_fs_mem h, h3, h4⟩
  · intro target N dest h
    exact assign_names_law target N dest h

/-- C7 witness: two same-target files with sequential materialization get
    a.jpg then a_1.jpg; a motion photo lands with the .mp4 extension. -/
theorem c7_target_and_collision_amended_witness :
    assign_names [] { dirs := ["d"], name := "a.jpg" } 2 =
      [{ dirs := ["d"], name := "a.jpg" }, { dirs := ["d"], name := "a_1.jpg" }] ∧
    (get_target_path 0 ["dest"] 1686830400 "motion.mp").name = "motion.mp4" :=
  ⟨((c7_target_and_collision_amended.2.2.2 { dirs := ["d"], name := "a.jpg" }
      2 [] (fun k _ => List.not_mem_nil _)).1).trans (by decide),
    ((c7_target_and_collision_amended.1 0 ["dest"] 1686830400
      "motion.mp").2.1 (by decide)).trans (by decide)⟩

/-! ## C8 -/

/-- Head of a stable insertion sort by score: a member of minimal score. -/
theorem insertionSort_head_min (score : String → Nat) :
    ∀ (l : List String), l ≠ [] →
      ∃ x t, List.insertionSort (fun a b => score a ≤ score b) l = x :: t ∧
        x ∈ l ∧ ∀ y ∈ l, score x ≤ score y := by
  intro l
  induction l with
  | nil => intro h; exact absurd rfl h
  | cons a l ih =>
    intro _
    by_cases hl : l = []
    · subst hl
      refine ⟨a, [], rfl, List.mem_singleton_self a, ?_⟩
      intro y hy
      rw [List.mem_singleton.mp hy]
    · obtain ⟨x, t, hsort, hmem, hmin⟩ := ih hl
      rw [List.insertionSort, hsort, List.orderedInsert]
      by_cases hax : score a ≤ score x
      · rw [if_pos hax]
        refine ⟨a, x :: t, rfl, List.mem_cons_self _ _, ?_⟩
        intro y hy
        rcases List.mem_cons.mp hy with rfl | hy2
        · exact le_rfl
        · exact le_trans hax (hmin y hy2)
      · rw [if_neg hax]
        refine ⟨x, _, rfl, List.mem_cons_of_mem _ hmem, ?_⟩
        intro y hy
        rcases List.mem_cons.mp hy with rfl | hy2
        · omega
        · exact hmin y hy2

/-- Every glob candidate is a name present in the directory listing. -/
theorem glob_candidates_subset {listing : List String} {media_name : String} :
    ∀ x ∈ sidecar_glob_candidates listing media_name, x ∈ listing := by
  intro x hx
  rw [sidecar_glob_candidates] at hx
  obtain ⟨l, hl, hxl⟩ := List.mem_flatten.mp hx
  obtain ⟨stem, _, rfl⟩ := List.mem_map.mp hl
  rw [glob_stem_json] at hxl
  exact (List.mem_filter.mp hxl).1

/-- The duplicate-forms step when the stem has no trailing counter. -/
theorem sidecar_with_duplicate_forms_none {media_name : String}
    (h : trailing_counter_split (stemOf media_name) = none)
    (cs : List String) : sidecar_with_duplicate_forms media_name cs = cs := by
  rw [sidecar_with_duplicate_forms, h]

/-- The duplicate-forms step when the stem has a trailing counter. -/
theorem sidecar_with_duplicate_forms_some {media_name base_stem
    duplicate_suffix : String}
    (h : trailing_counter_split (stemOf media_name) =
      some (base_stem, duplicate_suffix)) (cs : List String) :
    sidecar_with_duplicate_forms media_name cs =
      (if stemOf media_name ++ ".json" ∈
          cs ++ [base_stem ++ suffixOf media_name ++ duplicate_suffix ++
            ".json"] then
        cs ++ [base_stem ++ suffixOf media_name ++ duplicate_suffix ++ ".json"]
      else (cs ++ [base_stem ++ suffixOf media_name ++ duplicate_suffix ++
          ".json"]) ++ [stemOf media_name ++ ".json"]) := by
  rw [sidecar_with_duplicate_forms, h]

/-- Appending the duplicate-counter forms keeps a cons head. -/
theorem sidecar_with_duplicate_forms_cons (media_name c : String)
    (cs : List String) :
    ∃ rest, sidecar_with_duplicate_forms media_name (c :: cs) = c :: rest := by
  rw [sidecar_with_duplicate_forms]
  match trailing_counter_split (stemOf media_name) with
  | some (base_stem, duplicate_suffix) =>
    simp only []
    split
    · exact ⟨_, rfl⟩
    · exact ⟨_, List.cons_append _ _ _⟩
  | none => exact ⟨cs, rfl⟩

/-- C8 amended: the matcher returns the first existing candidate with the
    glob-derived candidates first — an existing glob candidate of minimal
    specificity score always wins, and the duplicate-counter transposed and
    legacy forms are consulted only when the glob finds nothing; among
    equal minimal scores the stable sort keeps directory-listing order, so
    the result depends on the listing order of tied candidates. -/
theorem c8_sidecar_matcher_amended :
    (∀ (listing : List String) (media_name : String),
      sidecar_glob_candidates listing media_name ≠ [] →
      ∃ c, find_json_sidecar listing media_name = some c ∧
        c ∈ sidecar_glob_candidates listing media_name ∧
        ∀ c2 ∈ sidecar_glob_candidates listing media_name,
          score_candidate media_name c ≤ score_candidate media_name c2) ∧
    (∀ (listing : List String) (media_name : String),
      sidecar_glob_candidates listing media_name = [] →
      trailing_counter_split (stemOf media_name) = none →
      find_json_sidecar listing media_name = none) ∧
    (∀ (listing : List String) (media_name base_stem duplicate_suffix : String),
      sidecar_glob_candidates listing media_name = [] →
      trailing_counter_split (stemOf media_name) =
        some (base_stem, duplicate_suffix) →
      find_json_sidecar listing media_name =
        (if base_stem ++ suffixOf media_name ++ duplicate_suffix ++ ".json"
            ∈ listing then
          some (base_stem ++ suffixOf media_name ++ duplicate_suffix ++ ".json")
        else if stemOf media_name ++ ".json" ∈ listing then
          some (stemOf media_name ++ ".json")
        else none)) := by
  refine ⟨?_, ?_, ?_⟩
  · intro listing media_name hne
    have hsorted : ∃ x t,
        sidecar_sorted_candidates listing media_name = x :: t ∧
        x ∈ sidecar_glob_candidates listing media_name ∧
        ∀ y ∈ sidecar_glob_candidates listing media_name,
          score_candidate media_name x ≤ score_candidate media_name y := by
      rw [sidecar_sorted_candidates]
      by_cases hlen : (sidecar_glob_candidates listing media_name).length > 1
      · rw [if_pos hlen]
        exact insertionSort_head_min (score_candidate media_name)
          (sidecar_glob_candidates listing media_name) hne
      · rw [if_neg hlen]
        match hg : sidecar_glob_candidates listing media_name with
        | [] => exact absurd hg hne
        | [c] =>
          refine ⟨c, [], rfl, List.mem_singleton_self c, ?_⟩
          intro y hy
          rw [List.mem_singleton.mp hy]
        | c1 :: c2 :: cs =>
          exfalso
          rw [hg] at hlen
          simp at hlen
    obtain ⟨x, t, hsort, hmem, hmin⟩ := hsorted
    obtain ⟨rest, hdup⟩ := sidecar_with_duplicate_forms_cons media_name x t
    refine ⟨x, ?_, hmem, hmin⟩
    rw [find_json_sidecar, hsort, hdup]
    exact List.find?_cons_of_pos _
      (decide_eq_true (glob_candidates_subset x hmem))
  · intro listing media_name hglob hsplit
    rw [find_json_sidecar]
    rw [show sidecar_sorted_candidates listing media_name = [] from by
      rw [sidecar_sorted_candidates, hglob]
      simp]
    rw [sidecar_with_duplicate_forms_none hsplit]
    rfl
  · intro listing media_name base_stem duplicate_suffix hglob hsplit
    rw [find_json_sidecar]
    rw [show sidecar_sorted_candidates listing media_name = [] from by
      rw [sidecar_sorted_candidates, hglob]
      simp]
    rw [sidecar_with_duplicate_forms_some hsplit, List.nil_append]
    by_cases hleg : stemOf media_name ++ ".json" ∈
        [base_stem ++ suffixOf media_name ++ duplicate_suffix ++ ".json"]
    · rw [if_pos hleg]
      have hEq : stemOf media_name ++ ".json" =
          base_stem ++ suffixOf media_name ++ duplicate_suffix ++ ".json" :=
        List.mem_singleton.mp hleg
      by_cases hpot : base_stem ++ suffixOf media_name ++ duplicate_suffix ++
          ".json" ∈ listing
      · rw [if_pos hpot]
        exact List.find?_cons_of_pos _ (decide_eq_true hpot)
      · rw [if_neg hpot, if_neg (by rw [hEq]; exact hpot)]
        rw [List.find?_cons_of_neg _ (by simp [hpot])]
        rfl
    · rw [if_neg hleg]
      by_cases hpot : base_stem ++ suffixOf media_name ++ duplicate_suffix ++
          ".json" ∈ listing
      · rw [if_pos hpot, List.cons_append, List.nil_append]
        exact List.find?_cons_of_pos _ (decide_eq_true hpot)
      · rw [if_neg hpot, List.cons_append, List.nil_append]
        rw [List.find?_cons_of_neg _ (by simp [hpot])]
        by_cases hlegmem : stemOf media_name ++ ".json" ∈ listing
        · rw [if_pos hlegmem]
          exact List.find?_cons_of_pos _ (decide_eq_true hlegmem)
        · rw [if_neg hlegmem]
          rw [List.find?_cons_of_neg _ (by simp [hlegmem])]
          rfl

def c8L : List String :=
  ["photo(1).jpg", "photo(1).weird.json", "photo.jpg(1).json"]

def c8L1 : List String := ["a.jpg", "a.x.json", "a.y.json"]

def c8L2 : List String := ["a.jpg", "a.y.json", "a.x.json"]

/-- C8 counterexample.  First: for photo(1).jpg, the duplicate-counter
    transposed sidecar photo.jpg(1).json exists on disk, yet the matcher
    returns the glob-derived photo(1).weird.json — glob candidates are
    consulted before the transposed form, not after it.  Second: the same
    set of files in two listing orders yields two different matches (tied
    specificity scores keep listing order), so the result is not
    independent of directory-listing order. -/
theorem c8_counterexample :
    ("photo.jpg(1).json" ∈ c8L ∧
      find_json_sidecar c8L "photo(1).jpg" = some "photo(1).weird.json" ∧
      ("photo(1).weird.json" : String) ≠ "photo.jpg(1).json") ∧
    (List.Perm c8L1 c8L2 ∧
      find_json_sidecar c8L1 "a.jpg" = some "a.x.json" ∧
      find_json_sidecar c8L2 "a.jpg" = some "a.y.json" ∧
      find_json_sidecar c8L1 "a.jpg" ≠ find_json_sidecar c8L2 "a.jpg") := by
  refine ⟨⟨by decide, by decide, by decide⟩,
    ⟨List.Perm.cons "a.jpg" (List.Perm.swap "a.y.json" "a.x.json" []),
      by decide, by decide, by decide⟩⟩

/-- C8 witness: the amended theorem applied to a directory where the glob
    finds the exact sidecar, and to a duplicate-counter file whose only
    sidecar is the transposed form. -/
theorem c8_sidecar_matcher_amended_witness :
    (∃ c, find_json_sidecar ["image.jpg", "image.jpg.json"] "image.jpg" =
        some c ∧
      c ∈ sidecar_glob_candidates ["image.jpg", "image.jpg.json"] "image.jpg" ∧
      ∀ c2 ∈ sidecar_glob_candidates ["image.jpg", "image.jpg.json"]
          "image.jpg",
        score_candidate "image.jpg" c ≤ score_candidate "image.jpg" c2) ∧
    find_json_sidecar ["image(1).jpg", "image.jpg(1).json"] "image(1).jpg" =
      (if "image" ++ suffixOf "image(1).jpg" ++ "(1)" ++ ".json"
          ∈ ["image(1).jpg", "image.jpg(1).json"] then
        some ("image" ++ suffixOf "image(1).jpg" ++ "(1)" ++ ".json")
      else if stemOf "image(1).jpg" ++ ".json"
          ∈ ["image(1).jpg", "image.jpg(1).json"] then
        some (stemOf "image(1).jpg" ++ ".json")
      else none) :=
  ⟨c8_sidecar_matcher_amended.1 ["image.jpg", "image.jpg.json"] "image.jpg"
      (by decide),
    c8_sidecar_matcher_amended.2.2 ["image(1).jpg", "image.jpg(1).json"]
      "image(1).jpg" "image" "(1)" (by decide) (by decide)⟩
